import Mathlib

/-
Verification development for the xpra-html5 build script (`setup.py`).

The script is shallowly embedded: external processes (git, gzip, brotli,
the minifier) are represented by their observable results (exit code and
captured stdout, or a success flag), the filesystem relevant to the
pipeline is represented as a list of existing paths, and the Python
functions `install_symlink`, `get_vcs_info`, `record_vcs_info`,
`load_vcs_info` and the per-asset loop of `install_html5` are translated
into executable Lean functions.  Python exceptions are modelled with
`Except`; Python's dynamically typed dictionary values with `PyVal`.
-/

set_option autoImplicit false

namespace Xpra

/-! ## Python string primitives

Character-level models of the Python `str` operations the script uses.
All of them work on `String.data` so that they can be reasoned about by
list induction.
-/

/-- Model of Python `str.startswith`: `leadsWith pre s` is true when `pre`
is an initial segment of `s`. -/
def leadsWith : List Char → List Char → Bool
  | [], _ => true
  | _ :: _, [] => false
  | p :: ps, c :: cs => p == c && leadsWith ps cs

def pyStartsWith (s pre : String) : Bool := leadsWith pre.data s.data

/-- Model of Python `str.endswith`. -/
def pyEndsWith (s suf : String) : Bool := leadsWith suf.data.reverse s.data.reverse

/-- One-character line terminators of Python `str.splitlines` other
than `\r` (which may pair with a following `\n`): LF, VT, FF, FS, GS,
RS, NEL, LINE SEPARATOR and PARAGRAPH SEPARATOR. -/
def isLineTerm (c : Char) : Bool :=
  c = '\n' || c = '\x0b' || c = '\x0c' || c = '\x1c' || c = '\x1d' || c = '\x1e' ||
  c = '\x85' || c = '\u2028' || c = '\u2029'

/-- Any `str.splitlines` line boundary character. -/
def lineBreakChar (c : Char) : Bool := c = '\r' || isLineTerm c

/-- Python whitespace: the characters matched by `\s` in a `str` regex
and stripped by `str.strip()` (`str.isspace`): the ASCII whitespace,
the C1 separators `\x1c`-`\x1f`, NEL, NBSP, and the Unicode space
separators. -/
def isWsChar (c : Char) : Bool :=
  c = ' ' || c = '\t' || c = '\n' || c = '\x0b' || c = '\x0c' || c = '\r' ||
  c = '\x1c' || c = '\x1d' || c = '\x1e' || c = '\x1f' || c = '\x85' || c = '\xa0' ||
  c = '\u1680' || (0x2000 ≤ c.toNat && c.toNat ≤ 0x200a) || c = '\u2028' ||
  c = '\u2029' || c = '\u202f' || c = '\u205f' || c = '\u3000'

/-- Whitespace of Python `str.strip()` with no argument — the same set
as the regex `\s`. -/
def isPyWs (c : Char) : Bool := isWsChar c

def stripData (p : Char → Bool) (l : List Char) : List Char :=
  ((l.dropWhile p).reverse.dropWhile p).reverse

/-- Model of Python `str.strip()` with no argument. -/
def pyStripWs (s : String) : String := String.mk (stripData isPyWs s.data)

def isNLCR (c : Char) : Bool := c = '\n' || c = '\r'

/-- Model of Python `str.strip("\n\r")` (used by `load_vcs_info`). -/
def pyStripNLCR (s : String) : String := String.mk (stripData isNLCR s.data)

/-- Model of Python `str.splitlines`: splits on every `lineBreakChar`,
with `\r\n` counting as a single terminator. -/
def slAux : List Char → List Char → List String
  | [], acc => if acc.isEmpty then [] else [String.mk acc.reverse]
  | c :: rest, acc =>
    if c = '\r' then
      match rest with
      | '\n' :: rest2 => String.mk acc.reverse :: slAux rest2 []
      | [] => String.mk acc.reverse :: slAux [] []
      | c2 :: rest2 => String.mk acc.reverse :: slAux (c2 :: rest2) []
    else if isLineTerm c then String.mk acc.reverse :: slAux rest []
    else slAux rest (c :: acc)

def pySplitlines (s : String) : List String := slAux s.data []

/-- Model of iterating over an open text file (`for line in f`): pieces
end with the `\n` that terminated them; a final piece without a
terminator is yielded only when nonempty. -/
def fileLinesAux : List Char → List Char → List String
  | [], acc => if acc.isEmpty then [] else [String.mk acc.reverse]
  | c :: rest, acc =>
    if c = '\n' then String.mk (('\n' :: acc).reverse) :: fileLinesAux rest []
    else fileLinesAux rest (c :: acc)

def fileLines (content : String) : List String := fileLinesAux content.data []

/-- Model of Python `str.split(sep)` for a one-character separator (the
script splits on `"="` and `"-"`). -/
def splitOnChar (c : Char) : List Char → List (List Char)
  | [] => [[]]
  | x :: xs =>
    if x = c then [] :: splitOnChar c xs
    else
      match splitOnChar c xs with
      | [] => [[x]]
      | h :: t => (x :: h) :: t

/-- Model of Python `str.find` for a one-character needle: index of the
first occurrence, `-1` when absent. -/
def pyFindCharAux (c : Char) : List Char → Int → Int
  | [], _ => -1
  | x :: xs, i => if x = c then i else pyFindCharAux c xs (i + 1)

def pyFindChar (s : String) (c : Char) : Int := pyFindCharAux c s.data 0

/-- Decimal digits of a natural number, most significant first
(the rendering used by Python `str(int)`). -/
def digitChar (d : Nat) : Char :=
  if d = 0 then '0' else if d = 1 then '1' else if d = 2 then '2'
  else if d = 3 then '3' else if d = 4 then '4' else if d = 5 then '5'
  else if d = 6 then '6' else if d = 7 then '7' else if d = 8 then '8' else '9'

/-- Fuel-driven digit expansion; `fuel = n + 1` always suffices since a
number `n` has at most `n + 1` decimal digits. -/
def natDecimalAux : Nat → Nat → List Char
  | 0, _ => []
  | fuel + 1, n =>
    if n < 10 then [digitChar n]
    else natDecimalAux fuel (n / 10) ++ [digitChar (n % 10)]

def natDecimal (n : Nat) : List Char := natDecimalAux (n + 1) n

/-- Model of Python `str(int)`. -/
def pyStrInt (n : Int) : String :=
  match n with
  | Int.ofNat m => String.mk (natDecimal m)
  | Int.negSucc m => String.mk ('-' :: natDecimal (m + 1))

def digitVal (c : Char) : Option Nat :=
  if 48 ≤ c.toNat ∧ c.toNat ≤ 57 then some (c.toNat - 48) else none

def digitsValAux : List Char → Nat → Option Nat
  | [], acc => some acc
  | c :: cs, acc =>
    match digitVal c with
    | some d => digitsValAux cs (acc * 10 + d)
    | none => none

def digitsVal : List Char → Option Nat
  | [] => none
  | l => digitsValAux l 0

/-- Model of Python `int(str)`: optional surrounding whitespace, optional
sign, at least one decimal digit.  (Python additionally accepts
underscore separators and non-ASCII digits, which cannot occur in git
output.)  Returns `none` where Python raises `ValueError`. -/
def pyInt (s : String) : Option Int :=
  match stripData isPyWs s.data with
  | '-' :: ds => (digitsVal ds).map (fun n => -(n : Int))
  | '+' :: ds => (digitsVal ds).map (fun n => (n : Int))
  | ds => (digitsVal ds).map (fun n => (n : Int))

/-! ## Python values -/

/-- Dynamically typed values stored in the script's dictionaries:
`get_vcs_info` stores `int` and `str` values, a failed
`get_output_line` produces `None`. -/
inductive PyVal where
  | vInt (n : Int)
  | vStr (s : String)
  | vNone
  deriving DecidableEq, Repr

deriving instance DecidableEq for Except

/-- Python truthiness for the values above. -/
def pyTruthy : PyVal → Bool
  | PyVal.vInt n => n != 0
  | PyVal.vStr s => s != ""
  | PyVal.vNone => false

/-- Model of Python `str(v)` / `"%s" % v`. -/
def pyStr : PyVal → String
  | PyVal.vInt n => pyStrInt n
  | PyVal.vStr s => s
  | PyVal.vNone => "None"

/-- Python dictionary assignment `d[k] = v` on an insertion-ordered
association list: an existing key keeps its position and gets the new
value, a fresh key is appended. -/
def dictSet (d : List (String × PyVal)) (k : String) (v : PyVal) : List (String × PyVal) :=
  if d.any (fun kv => kv.1 == k) then d.map (fun kv => if kv.1 = k then (k, v) else kv)
  else d ++ [(k, v)]

/-- Python dictionary equality (`==`): same keys, same values, order
irrelevant. -/
def pyDictEq (a b : List (String × PyVal)) : Bool :=
  a.all (fun kv => b.lookup kv.1 == some kv.2) && b.all (fun kv => a.lookup kv.1 == some kv.2)

/-! ## VCS metadata subsystem (`get_vcs_info`, `record_vcs_info`, `load_vcs_info`)

The external git commands are represented by their observable result: a
pair of the process return code and the decoded stdout. -/

/-- Results of the six external commands `get_vcs_info` runs:
the three branch-detection commands, `git describe --always --tags`,
`git rev-list --count HEAD --first-parent`, and `git status`. -/
structure GitWorld where
  b1 : Int × String
  b2 : Int × String
  b3 : Int × String
  describe : Int × String
  revListCount : Int × String
  status : Int × String

/-- The branch-detection loop (setup.py lines 59-72): first command with
return code 0 and nonempty `splitlines` output supplies the branch. -/
def branchLoopGo : List (Int × String) → Option String
  | [] => none
  | r :: rest =>
    if r.1 = 0 then
      match pySplitlines r.2 with
      | [] => branchLoopGo rest
      | l :: _ => some l
    else branchLoopGo rest

def branchLoop (w : GitWorld) : Option String := branchLoopGo [w.b1, w.b2, w.b3]

/-- `get_output_line` (setup.py lines 78-85): `None` on nonzero return
code; `splitlines()[0]` otherwise, which raises `IndexError` when the
output is empty. -/
def get_output_line (r : Int × String) : Except String (Option String) :=
  if r.1 ≠ 0 then Except.ok none
  else
    match pySplitlines r.2 with
    | [] => Except.error ("IndexError: list index out of range")
    | v :: _ => Except.ok (some v)

/-- `info["BRANCH"]` handling (setup.py lines 73-76): set only when the
branch is truthy. -/
def branchInfo (branch : Option String) : List (String × PyVal) :=
  match branch with
  | some b => if b = "" then [] else [("BRANCH", PyVal.vStr b)]
  | none => []

/-- The revision value after setup.py lines 86-92: `rev` starts as the
int `0`, becomes `parts[1]` when `git describe` output splits on `"-"`
into exactly three parts, and is replaced by the `git rev-list --count`
output line on branch `master` (which is `None` when that command
fails).  Line 86 calls `.split` on the result of `get_output_line`
directly, so a `None` there raises `AttributeError`. -/
def revValue (branch : Option String) (w : GitWorld) : Except String PyVal :=
  match get_output_line w.describe with
  | Except.error e => Except.error e
  | Except.ok none => Except.error ("AttributeError: NoneType object has no attribute split")
  | Except.ok (some dLine) =>
    -- the tag-derived `rev` of lines 88-90 is only read when the branch
    -- is not `master`, so the two assignments are merged into the two
    -- branches of the line-91 test
    if branch = some ("master") then
      match get_output_line w.revListCount with
      | Except.error e => Except.error e
      | Except.ok none => Except.ok PyVal.vNone
      | Except.ok (some s) => Except.ok (PyVal.vStr s)
    else
      match splitOnChar '-' dLine.data with
      | [_, r, _] => Except.ok (PyVal.vStr (String.mk r))
      | _ => Except.ok (PyVal.vInt 0)

/-- The `if rev:` block (setup.py lines 93-99): a truthy revision is
converted with `int(...)`; on a parse failure the key is omitted.  (The
`vInt` case mirrors `int(n) = n`; it is unreachable because the only
integer value `rev` can hold is the falsy `0`.) -/
def revInfo (rev : PyVal) : List (String × PyVal) :=
  if pyTruthy rev then
    match rev with
    | PyVal.vStr s =>
      match pyInt s with
      | some n => [("REVISION", PyVal.vInt n)]
      | none => []
    | PyVal.vInt n => [("REVISION", PyVal.vInt n)]
    | PyVal.vNone => []
  else []

/-- One line of `git status` output counts as a local modification
(setup.py lines 107-110). -/
def isModLine (line : String) : Bool :=
  let s := pyStripWs line
  pyStartsWith s ("modified: ") || pyStartsWith s ("new file:") || pyStartsWith s ("deleted:")

/-- The `git status` scan (setup.py lines 101-110). -/
def modCount (r : Int × String) : Nat :=
  if r.1 = 0 then ((pySplitlines r.2).filter isModLine).length else 0

/-- `info["LOCAL_MODIFICATIONS"]` handling (setup.py lines 111-112):
set only when the count is nonzero. -/
def lmInfo (changes : Nat) : List (String × PyVal) :=
  if changes ≠ 0 then [("LOCAL_MODIFICATIONS", PyVal.vInt (changes : Int))] else []

/-- `get_vcs_info` (setup.py lines 56-113).  The keys are assigned in
the order BRANCH, REVISION, LOCAL_MODIFICATIONS and are pairwise
distinct, so the successive dictionary inserts are list appends. -/
def get_vcs_info (w : GitWorld) : Except String (List (String × PyVal)) :=
  match revValue (branchLoop w) w with
  | Except.error e => Except.error e
  | Except.ok rev =>
    Except.ok (branchInfo (branchLoop w) ++ revInfo rev ++ lmInfo (modCount w.status))

/-- One `KEY=value` line per entry, as written by `record_vcs_info`
(setup.py lines 118-120). -/
def serializeInfo : List (String × PyVal) → String
  | [] => ""
  | kv :: rest => kv.1 ++ "=" ++ pyStr kv.2 ++ "\n" ++ serializeInfo rest

/-- `record_vcs_info` (setup.py lines 115-120) writes the sidecar only
when the mapping is truthy (nonempty); the file argument is the previous
content of `./vcs-info` (`none` when absent). -/
def record_vcs_info (info : List (String × PyVal)) (file : Option String) : Option String :=
  if info = [] then file else some (serializeInfo info)

/-- One parsing step of `load_vcs_info` (setup.py lines 126-131):
comment lines are skipped, the line is stripped of `\n\r`, split on
`"="`, and kept only when it has exactly two parts. -/
def parseVcsLine (info : List (String × PyVal)) (line : String) : List (String × PyVal) :=
  if pyStartsWith line ("#") then info
  else
    match splitOnChar '=' (pyStripNLCR line).data with
    | [k, v] => dictSet info (String.mk k) (PyVal.vStr (String.mk v))
    | _ => info

/-- `load_vcs_info` (setup.py lines 122-132); the argument is the content
of `./vcs-info` (`none` when the file does not exist). -/
def load_vcs_info : Option String → List (String × PyVal)
  | none => []
  | some content => (fileLines content).foldl parseVcsLine []

/-! ## Filesystem model

The filesystem visible to the pipeline is a list of existing paths.
`fsAdd`/`fsRemove` model creating and unlinking a file ("unlink if it
exists" is an unconditional `fsRemove`, which is a no-op on an absent
path). -/

def fsMem (S : List String) (p : String) : Bool := S.any (fun q => q == p)

def fsAdd (S : List String) (p : String) : List String :=
  if fsMem S p then S else p :: S

def fsRemove (S : List String) (p : String) : List String := S.filter (fun q => q != p)

/-- A recorded filesystem mutation: `(p, true)` creates `p`,
`(p, false)` unlinks it. -/
def applyOp (S : List String) (op : String × Bool) : List String :=
  if op.2 then fsAdd S op.1 else fsRemove S op.1

def applyOps (S : List String) (ops : List (String × Bool)) : List String :=
  ops.foldl applyOp S

/-! ## Symlink resolver (`install_symlink`) -/

/-- All suffixes of a list, longest first. -/
def listTails : List Char → List (List Char)
  | [] => [[]]
  | c :: cs => (c :: cs) :: listTails cs

/-- Scan a bracket-expression body up to the closing `]`, returning the
body and the remainder of the pattern. -/
def scanClose : List Char → Option (List Char × List Char)
  | [] => none
  | ']' :: t => some ([], t)
  | c :: t => (scanClose t).map (fun br => (c :: br.1, br.2))

/-- Parse the pattern text following a `[`: an optional `!` negation,
then a class body in which a leading `]` is literal.  `none` when no
closing `]` exists — Python `fnmatch` then treats the `[` as a literal
character. -/
def parseClass (ps : List Char) : Option (Bool × List Char × List Char) :=
  match ps with
  | '!' :: ps1 =>
    (match ps1 with
     | ']' :: t => (scanClose t).map (fun br => (true, ']' :: br.1, br.2))
     | _ => (scanClose ps1).map (fun br => (true, br.1, br.2)))
  | ']' :: t => (scanClose t).map (fun br => (false, ']' :: br.1, br.2))
  | _ => (scanClose ps).map (fun br => (false, br.1, br.2))

/-- Membership of a character in a bracket-expression body, with `x-y`
ranges as in a regex character class (a `-` at the start or end is
literal). -/
def matchSet : List Char → Char → Bool
  | x :: '-' :: y :: rest, c =>
    (decide (x ≤ c) && decide (c ≤ y)) || matchSet rest c
  | x :: rest, c => (x == c) || matchSet rest c
  | [], _ => false

def classMatch (neg : Bool) (stuff : List Char) (c : Char) : Bool :=
  if neg then !(matchSet stuff c) else matchSet stuff c

/-- Shell-style pattern matching with the glob metacharacters `*`, `?`
and `[...]`, as `fnmatch.fnmatchcase` (`*` here matches any characters;
the patterns the script uses never rely on the per-component behaviour
of `glob`).  The fuel bounds the pattern length, which every step
strictly decreases; `fnmatch` supplies `pattern length + 1`, which
always suffices. -/
def fnmatchAux : Nat → List Char → List Char → Bool
  | 0, _, _ => false
  | _ + 1, [], s => s.isEmpty
  | fuel + 1, p :: ps, s =>
    if p = '*' then (listTails s).any (fun t => fnmatchAux fuel ps t)
    else if p = '?' then
      match s with
      | [] => false
      | _ :: ss => fnmatchAux fuel ps ss
    else if p = '[' then
      match parseClass ps with
      | none =>
        match s with
        | [] => false
        | c :: ss => ('[' == c) && fnmatchAux fuel ps ss
      | some nr =>
        match s with
        | [] => false
        | c :: ss => classMatch nr.1 nr.2.1 c && fnmatchAux fuel nr.2.2 ss
    else
      match s with
      | [] => false
      | c :: ss => (p == c) && fnmatchAux fuel ps ss

def fnmatch (pat s : String) : Bool := fnmatchAux (pat.data.length + 1) pat.data s.data

/-- Model of `glob.has_magic`: the metacharacters are exactly `*`, `?`
and `[`. -/
def hasMagic (s : String) : Bool :=
  s.data.any (fun c => c == '*' || c == '?' || c == '[')

/-- Model of `glob.glob(pattern)`: the existing paths matching the
pattern, in filesystem-enumeration order. -/
def globGlob (fs : List String) (pat : String) : List String :=
  fs.filter (fun s => fnmatch pat s)

/-- `install_symlink` (setup.py lines 36-53) over the filesystem `fs`.
Returns the success flag together with the path the destination was
symlinked to (`none` when the destination was left untouched).

Note the faithful modelling of line 38, `if symlink_option.find("*"):`.
Python truth-tests the *index* returned by `find`, so the glob branch is
taken whenever the first `*` is not at index 0 — in particular for
candidates containing no `*` at all (where `find` returns the truthy
`-1`) — and a pattern whose `*` is at index 0 is treated as a literal
path. -/
def install_symlink (fs : List String) : List String → String → Bool × Option String
  | [], _ => (false, none)
  | opt :: rest, dst =>
    let opt? : Option String :=
      if pyFindChar opt '*' ≠ 0 then
        match globGlob fs opt with
        | [] => none
        | m :: _ => some m
      else some opt
    match opt? with
    | none => install_symlink fs rest dst
    | some o =>
      if fsMem fs o then (true, some o)
      else install_symlink fs rest dst

/-! ## Asset pipeline (`install_html5`, setup.py lines 134-308)

Path helpers first: the script runs with POSIX path semantics
(`os.sep = "/"`). -/

/-- `os.path.join` for two components. -/
def pyJoin2 (a b : String) : String :=
  if pyStartsWith b ("/") then b
  else if a = "" then b
  else if pyEndsWith a ("/") then a ++ b
  else a ++ "/" ++ b

/-- `os.path.join(*parts)` (left fold of the binary join). -/
def joinAll : List String → String
  | [] => ""
  | x :: xs => xs.foldl pyJoin2 x

/-- `os.path.basename`. -/
def pyBasename (p : String) : String :=
  String.mk ((splitOnChar '/' p.data).getLastD p.data)

/-- The destination-relative name of an asset (setup.py lines 185-187):
a leading `html5` path component is stripped.  (When the name is exactly
`"html5"` the Python `os.path.join(*[])` would raise; discovered file
names always have at least two components, and the model keeps the name
unchanged in that unreachable case.) -/
def installName (fname : String) : String :=
  match splitOnChar '/' fname.data with
  | [] => fname
  | p0 :: rest =>
    if p0 = ("html5".data) then
      match rest with
      | [] => fname
      | _ => joinAll (rest.map String.mk)
    else fname

/-- Destination path of an asset (setup.py line 190). -/
def dstPath (installDir fname : String) : String := pyJoin2 installDir (installName fname)

/-- File type by extension (setup.py line 201:
`os.path.splitext(fname)[1].lstrip(".")`).  `splitext` ignores the
leading dots of the basename. -/
def fileType (fname : String) : String :=
  let b := (pyBasename fname).data
  let core := b.dropWhile (fun c => c = '.')
  let revExt := core.reverse.takeWhile (fun c => c ≠ '.')
  if revExt.length = core.length then "" else String.mk revExt.reverse

/-- The static replacement table of setup.py lines 166-177, keyed by
asset base name. -/
def symlinksTable (bname : String) : List String :=
  if bname = "jquery.js" then
    ["/usr/share/javascript/jquery/jquery.js",
     "/usr/share/javascript/jquery/latest/jquery.js",
     "/usr/share/javascript/jquery/3/jquery.js"]
  else if bname = "jquery-ui.js" then
    ["/usr/share/javascript/jquery-ui/jquery-ui.js",
     "/usr/share/javascript/jquery-ui/latest/jquery-ui.js",
     "/usr/share/javascript/jquery-ui/3/jquery-ui.js"]
  else []

/-- Terminal install outcome of one asset: the branch of setup.py lines
195-275 that produced the destination file.  The minify branch's
internal fallback copy on a nonzero minifier exit (lines 266-269) is
recorded separately in `ProcResult.fallbackCopy`. -/
inductive Outcome where
  | symlinked
  | minified
  | copied
  deriving DecidableEq, Repr

/-- The environment of one `install_html5` run: configuration plus the
observable behaviour of the external tools.  `gzipOk dst` is whether the
gzip invocation for `dst` succeeds (creating `dst.gz`; the code ignores
gzip's exit status and checks for the file), `brotliCode dst` is the
brotli exit code (the tool creates the `.br` output exactly when it
exits 0), `minifyExit dst` the minifier exit code.  `sysFs` lists the
system paths consulted by `install_symlink`. -/
structure AEnv where
  installDir : String
  minifier : String
  gzipFlag : Bool
  brotliFlag : Bool
  brotliCmd : Option String
  sysFs : List String
  gzipOk : String → Bool
  brotliCode : String → Int
  minifyExit : String → Int

/-- Result of processing one discovered asset (one iteration of the
`for fname in files` loop, setup.py lines 181-308): the terminal
outcome, whether the minifier fell back to a copy, whether gzip/brotli
were invoked, whether the loop-terminating `break` of line 306 fired,
and the filesystem mutations in chronological order. -/
structure ProcResult where
  outcome : Outcome
  fallbackCopy : Bool
  gzRun : Bool
  brRun : Bool
  brk : Bool
  ops : List (String × Bool)
  deriving DecidableEq, Repr

/-- One iteration of the asset loop.  The source-transformation step
(setup.py lines 204-240) rewrites a temporary copy of the *source* file
and removes it again at line 277-278; it never touches the install
directory and does not influence the recorded outcome, so it is modelled
separately (`stampVcs`, `downlevelData`). -/
def processAsset (env : AEnv) (fname : String) : ProcResult :=
  let dst := dstPath env.installDir fname
  -- lines 191-192: unlink a pre-existing destination
  let ops0 : List (String × Bool) := [(dst, false)]
  match install_symlink env.sysFs (symlinksTable (pyBasename fname)) dst with
  | (true, _) =>
    -- lines 195-197 via lines 48-50: unlink dst again, create the symlink
    { outcome := Outcome.symlinked, fallbackCopy := false, gzRun := false, brRun := false,
      brk := false, ops := ops0 ++ [(dst, false), (dst, true)] }
  | (false, _) =>
    let ftype := fileType fname
    -- line 242: minify only for js assets with a real minifier configured
    let minify := (env.minifier != "" && env.minifier != "copy") && ftype == "js"
    let o := if minify then Outcome.minified else Outcome.copied
    let fb := minify && env.minifyExit dst != 0
    -- lines 242-275: both branches write the destination file
    let ops1 := ops0 ++ [(dst, true)]
    if ftype != "png" then
      let gzOps : List (String × Bool) :=
        if env.gzipFlag then
          -- lines 282-288: unlink a stale .gz, run gzip, keep its output
          (dst ++ ".gz", false) :: (if env.gzipOk dst then [(dst ++ ".gz", true)] else [])
        else []
      if env.brotliFlag && env.brotliCmd.isSome then
        -- lines 289-308: unlink a stale .br, run brotli; on success the
        -- `break` of line 306 aborts the whole per-directory file loop
        let code := env.brotliCode dst
        let brOps : List (String × Bool) :=
          (dst ++ ".br", false) :: (if code == 0 then [(dst ++ ".br", true)] else [])
        { outcome := o, fallbackCopy := fb, gzRun := env.gzipFlag, brRun := true,
          brk := code == 0, ops := ops1 ++ gzOps ++ brOps }
      else
        { outcome := o, fallbackCopy := fb, gzRun := env.gzipFlag, brRun := false,
          brk := false, ops := ops1 ++ gzOps }
    else
      { outcome := o, fallbackCopy := fb, gzRun := false, brRun := false,
        brk := false, ops := ops1 }

/-- What happened to one discovered file in a run. -/
inductive AssetFate where
  | skippedTmp
  | unreached
  | done (o : Outcome) (gz : Bool) (br : Bool)
  deriving DecidableEq, Repr

/-- The `for fname in files` loop (setup.py lines 181-308) over one
directory's file list, threading the install-directory filesystem `S`.
`.tmp` files are skipped (line 182); when the line-306 `break` fires the
remaining files of the directory are never processed. -/
def runFiles (env : AEnv) : List String → List String → List (String × AssetFate) × List String
  | [], S => ([], S)
  | f :: rest, S =>
    if pyEndsWith f (".tmp") then
      let r := runFiles env rest S
      ((f, AssetFate.skippedTmp) :: r.1, r.2)
    else
      let p := processAsset env f
      let S1 := applyOps S p.ops
      let dst := dstPath env.installDir f
      let fate := AssetFate.done p.outcome (fsMem S1 (dst ++ ".gz")) (fsMem S1 (dst ++ ".br"))
      if p.brk then
        ((f, fate) :: rest.map (fun g => (g, AssetFate.unreached)), S1)
      else
        let r := runFiles env rest S1
        ((f, fate) :: r.1, r.2)

/-- The outer loop of `install_html5` over the discovered directories
(setup.py line 178; the relative-directory key is computed but never
used, so only the file lists matter).  The final best-effort
desktop-background symlink step (lines 310-324) touches a single
configured path outside the discovered assets and is not modelled. -/
def install_html5 (env : AEnv) : List (List String) → List String →
    List (String × AssetFate) × List String
  | [], S => ([], S)
  | d :: ds, S =>
    let r1 := runFiles env d S
    let r2 := install_html5 env ds r1.2
    (r1.1 ++ r2.1, r2.2)

/-- The filesystem mutations of a run of the per-directory loop, in
chronological order (used to characterise the final filesystem). -/
def runFilesOps (env : AEnv) : List String → List (String × Bool)
  | [] => []
  | f :: rest =>
    if pyEndsWith f (".tmp") then runFilesOps env rest
    else
      let p := processAsset env f
      p.ops ++ (if p.brk then [] else runFilesOps env rest)

def runOps (env : AEnv) : List (List String) → List (String × Bool)
  | [] => []
  | d :: ds => runFilesOps env d ++ runOps env ds

/-! ## Source transformer (setup.py lines 204-240) -/

/-- Version stamping of the designated file `Utilities.js` (setup.py
lines 210-223), one replacement per present-and-truthy field.  `info` is
the mapping returned by `load_vcs_info`. -/
def stampRev (info : List (String × PyVal)) (data : String) : String :=
  match info.lookup ("REVISION") with
  | some v =>
    if pyTruthy v then data.replace ("REVISION : 0,") ("REVISION : " ++ pyStr v ++ ",") else data
  | none => data

def stampLM (info : List (String × PyVal)) (data : String) : String :=
  match info.lookup ("LOCAL_MODIFICATIONS") with
  | some v =>
    if pyTruthy v then
      data.replace ("LOCAL_MODIFICATIONS : 0,") ("LOCAL_MODIFICATIONS : " ++ pyStr v ++ ",")
    else data
  | none => data

def stampBranch (info : List (String × PyVal)) (data : String) : String :=
  match info.lookup ("BRANCH") with
  | some v =>
    if pyTruthy v then
      data.replace ("BRANCH : \"master\",") ("BRANCH : \"" ++ pyStr v ++ "\",")
    else data
  | none => data

/-- The whole stamping step guarded by `if bname=="Utilities.js" and
info:` (line 210): an empty (falsy) mapping skips all three
replacements. -/
def stampVcs (info : List (String × PyVal)) (data : String) : String :=
  if info = [] then data
  else stampBranch info (stampLM info (stampRev info data))

def dropWs (l : List Char) : List Char := l.dropWhile isWsChar

/-- Matches a literal against the head of the text. -/
def matchLit : List Char → List Char → Option (List Char)
  | [], rest => some rest
  | _ :: _, [] => none
  | p :: ps, c :: cs => if c = p then matchLit ps cs else none

/-- `re.sub(r"^\s*let\s+", "var ", line)`, specialised to the anchored
pattern: because each literal of the pattern starts with a non-space
character, the greedy `\s*`/`\s+` match equals "skip maximal
whitespace". -/
def subLet (line : List Char) : Option (List Char) := do
  let r1 ← matchLit ("let".data) (dropWs line)
  match r1 with
  | c :: _ => if isWsChar c then some (("var ".data) ++ dropWs r1) else none
  | [] => none

def subConst (line : List Char) : Option (List Char) := do
  let r1 ← matchLit ("const".data) (dropWs line)
  match r1 with
  | c :: _ => if isWsChar c then some (("var ".data) ++ dropWs r1) else none
  | [] => none

/-- `re.sub(r"^\s*for\s*\(\s*let\s+", "for(var ", line)`. -/
def subForLet (line : List Char) : Option (List Char) := do
  let r1 ← matchLit ("for".data) (dropWs line)
  let r2 ← matchLit ("(".data) (dropWs r1)
  let r3 ← matchLit ("let".data) (dropWs r2)
  match r3 with
  | c :: _ => if isWsChar c then some (("for(var ".data) ++ dropWs r3) else none
  | [] => none

def subForConst (line : List Char) : Option (List Char) := do
  let r1 ← matchLit ("for".data) (dropWs line)
  let r2 ← matchLit ("(".data) (dropWs r1)
  let r3 ← matchLit ("const".data) (dropWs r2)
  match r3 with
  | c :: _ => if isWsChar c then some (("for(var ".data) ++ dropWs r3) else none
  | [] => none

/-- Applying one anchored pattern to one line: the anchored pattern
matches at most once, so `p.sub` either rewrites the matched head or
leaves the line unchanged. -/
def applyPat (sub : List Char → Option (List Char)) (line : String) : String :=
  match sub line.data with
  | some l => String.mk l
  | none => line

/-- Python `"\n".join`. -/
def pyJoinNL : List String → String
  | [] => ""
  | [x] => x
  | x :: xs => x ++ "\n" ++ pyJoinNL xs

/-- One pass of the downleveling loop body (setup.py lines 230-234):
apply one pattern to every line and re-join with `\n`. -/
def subAll (sub : List Char → Option (List Char)) (data : String) : String :=
  pyJoinNL ((pySplitlines data).map (applyPat sub))

/-- The syntax-downleveling step (setup.py lines 224-234): the four
patterns applied in the dictionary's insertion order. -/
def downlevelData (data : String) : String :=
  subAll subConst (subAll subForConst (subAll subLet (subAll subForLet data)))

def dropWsStr (s : String) : String := String.mk (dropWs s.data)

/-- Characters that do not terminate a line (domain of the per-line
statements about the downleveler). -/
def plainChar (c : Char) : Bool := !(lineBreakChar c)

/-- Indentation characters (`\s` as leading whitespace of a line). -/
def indentChar (c : Char) : Bool := c = ' ' || c = '\t'

/-- None of the four downleveling patterns matches the line. -/
abbrev noPatMatch (line : String) : Prop :=
  subForLet line.data = none ∧ subLet line.data = none ∧
  subForConst line.data = none ∧ subConst line.data = none

/-- A character that survives a `KEY=value\n` sidecar line unchanged:
not a line terminator and not the `=` separator. -/
abbrev cleanChar (c : Char) : Prop := ¬ c = '\n' ∧ ¬ c = '\r' ∧ ¬ c = '='

/-- A `vcs-info` entry that the `KEY=value` syntax represents
faithfully: nonempty key not starting with `#`, and clean characters in
the key and in the rendered value. -/
abbrev entryGood (kv : String × PyVal) : Prop :=
  kv.1.data ≠ [] ∧ kv.1.data.head? ≠ some '#' ∧
  (∀ c ∈ kv.1.data, cleanChar c) ∧ (∀ c ∈ (pyStr kv.2).data, cleanChar c)

/-- The last recorded mutation of path `p` in an op list, if any. -/
def lastOp : List (String × Bool) → String → Option Bool
  | [], _ => none
  | op :: rest, p =>
    match lastOp rest p with
    | some x => some x
    | none => if op.1 = p then some op.2 else none

/-! ## Concrete environments and git worlds used by the claim theorems -/

/-- Run environment exhibiting the line-306 `break`: no minifier
("copy"), gzip disabled, a brotli tool located and succeeding on every
destination. -/
def envC1 : AEnv :=
  { installDir := "www", minifier := "copy", gzipFlag := false, brotliFlag := true,
    brotliCmd := some ("/usr/bin/brotli"), sysFs := [],
    gzipOk := fun _ => false, brotliCode := fun _ => 0, minifyExit := fun _ => 0 }

/-- Run environment with gzip and brotli enabled and succeeding. -/
def envC2 : AEnv :=
  { installDir := "www", minifier := "uglifyjs", gzipFlag := true, brotliFlag := true,
    brotliCmd := some ("/usr/bin/brotli"), sysFs := [],
    gzipOk := fun _ => true, brotliCode := fun _ => 0, minifyExit := fun _ => 0 }

/-- Run environment with gzip enabled and brotli requested but no tool
located on the PATH (`brotli_cmd = None`, setup.py lines 291-297). -/
def envC2n : AEnv :=
  { installDir := "www", minifier := "uglifyjs", gzipFlag := true, brotliFlag := true,
    brotliCmd := none, sysFs := [],
    gzipOk := fun _ => true, brotliCode := fun _ => 0, minifyExit := fun _ => 0 }

/-- Run environment for the compression-exclusion witness: gzip enabled,
brotli located but failing (exit 1), so the run continues past every
asset. -/
def envC10 : AEnv :=
  { installDir := "www", minifier := "uglifyjs", gzipFlag := true, brotliFlag := true,
    brotliCmd := some ("/usr/bin/brotli"), sysFs := [],
    gzipOk := fun _ => true, brotliCode := fun _ => 1, minifyExit := fun _ => 0 }

/-- Git world: branch detection fails, `git describe` yields a
three-part tag description, `git status` fails. -/
def wC3 : GitWorld :=
  ⟨(1, ""), (1, ""), (1, ""), (0, "v4.0.6-85-gf253d3f9d\n"), (1, ""), (1, "")⟩

/-- Git world where `git describe --always --tags` fails (e.g. the
working directory is not a git repository). -/
def wC5 : GitWorld := ⟨(1, ""), (1, ""), (1, ""), (128, ""), (1, ""), (1, "")⟩

/-- Git world whose `git describe` output has the literal middle part
`"0"` (a tag named with a `-0-` infix, described at an exact match). -/
def wC9 : GitWorld := ⟨(1, ""), (1, ""), (1, ""), (0, "a-0-b\n"), (1, ""), (1, "")⟩

/-! ## Helper lemmas: the filesystem model -/

theorem boolExt {a b : Bool} (h : a = true ↔ b = true) : a = b := by
  cases a <;> cases b <;> simp_all

theorem fsMem_iff (S : List String) (p : String) : fsMem S p = true ↔ p ∈ S := by
  simp [fsMem, List.any_eq_true]

theorem fsMem_fsAdd (S : List String) (p q : String) :
    fsMem (fsAdd S p) q = (q == p || fsMem S q) := by
  apply boolExt
  by_cases h : q = p
  · subst h
    simp only [fsAdd]
    split
    · simp_all
    · simp [fsMem_iff]
  · simp only [fsAdd]
    split
    · simp [fsMem_iff, h]
    · simp [fsMem_iff, h]

theorem fsMem_fsRemove (S : List String) (p q : String) :
    fsMem (fsRemove S p) q = (q != p && fsMem S q) := by
  apply boolExt
  by_cases h : q = p
  · subst h
    simp [fsRemove, fsMem_iff, List.mem_filter]
  · simp [fsRemove, fsMem_iff, List.mem_filter, h]

theorem applyOps_append (S : List String) (a b : List (String × Bool)) :
    applyOps S (a ++ b) = applyOps (applyOps S a) b := by
  simp [applyOps, List.foldl_append]

theorem fsMem_applyOps (ops : List (String × Bool)) (S : List String) (p : String) :
    fsMem (applyOps S ops) p =
      (match lastOp ops p with
       | some b => b
       | none => fsMem S p) := by
  induction ops generalizing S with
  | nil => rfl
  | cons op rest ih =>
    obtain ⟨q, b⟩ := op
    show fsMem (applyOps (applyOp S (q, b)) rest) p = _
    rw [ih]
    cases h : lastOp rest p with
    | some x => simp [lastOp, h]
    | none =>
      simp only [lastOp, h]
      by_cases hqp : q = p
      · subst hqp
        cases b <;> simp [applyOp, fsMem_fsAdd, fsMem_fsRemove]
      · have : (p == q) = false := by simp [Ne.symm hqp]
        have : (p != q) = true := by simp [Ne.symm hqp]
        cases b <;> simp_all [applyOp, fsMem_fsAdd, fsMem_fsRemove, hqp]

theorem applyOps_idem (S : List String) (ops : List (String × Bool)) (p : String) :
    fsMem (applyOps (applyOps S ops) ops) p = fsMem (applyOps S ops) p := by
  rw [fsMem_applyOps, fsMem_applyOps]
  cases h : lastOp ops p
  · simp [fsMem_applyOps, h]
  · rfl

/-! ## Helper lemmas: the run's filesystem effect is its op list -/

theorem runFiles_snd (env : AEnv) :
    ∀ (files : List String) (S : List String),
      (runFiles env files S).2 = applyOps S (runFilesOps env files) := by
  intro files
  induction files with
  | nil => intro S; rfl
  | cons f rest ih =>
    intro S
    simp only [runFiles, runFilesOps]
    split
    · exact ih S
    · split
      · simp [applyOps_append]
      · simpa [applyOps_append] using ih (applyOps S (processAsset env f).ops)

theorem install_html5_snd (env : AEnv) :
    ∀ (dirs : List (List String)) (S : List String),
      (install_html5 env dirs S).2 = applyOps S (runOps env dirs) := by
  intro dirs
  induction dirs with
  | nil => intro S; rfl
  | cons d ds ih =>
    intro S
    simp only [install_html5, runOps, applyOps_append]
    rw [ih, runFiles_snd]

/-! ## Helper lemmas: the symlink resolver on literal candidates -/

theorem pyFindCharAux_none (c : Char) :
    ∀ (l : List Char), c ∉ l → ∀ i, pyFindCharAux c l i = -1 := by
  intro l
  induction l with
  | nil => intro _ i; rfl
  | cons x xs ih =>
    intro h i
    have hx : ¬ x = c := fun e => h (by simp [e])
    simp only [pyFindCharAux, if_neg hx]
    exact ih (fun hm => h (List.mem_cons_of_mem _ hm)) (i + 1)

theorem hasMagic_chars (A : String) (h : hasMagic A = false) :
    ∀ c ∈ A.data, ¬ c = '*' ∧ ¬ c = '?' ∧ ¬ c = '[' := by
  intro c hc
  refine ⟨fun e => ?_, fun e => ?_, fun e => ?_⟩
  all_goals
    subst e
    have ht : hasMagic A = true := by
      simp only [hasMagic, List.any_eq_true]
      exact ⟨_, hc, by decide⟩
    rw [ht] at h
    exact Bool.noConfusion h

theorem fnmatchAux_lit :
    ∀ (fuel : Nat) (p : List Char), p.length < fuel →
      (∀ c ∈ p, ¬ c = '*' ∧ ¬ c = '?' ∧ ¬ c = '[') →
      ∀ s, (fnmatchAux fuel p s = true ↔ p = s) := by
  intro fuel
  induction fuel with
  | zero => intro p hl; exact absurd hl (Nat.not_lt_zero _)
  | succ fuel ih =>
    intro p hl h s
    cases p with
    | nil => cases s <;> simp [fnmatchAux]
    | cons a ps =>
      obtain ⟨ha1, ha2, ha3⟩ := h a (List.mem_cons_self a ps)
      have hps : ∀ c ∈ ps, ¬ c = '*' ∧ ¬ c = '?' ∧ ¬ c = '[' :=
        fun c hc => h c (List.mem_cons_of_mem _ hc)
      have hlen : ps.length < fuel := by
        simpa [List.length_cons, Nat.succ_lt_succ_iff] using hl
      cases s with
      | nil => simp [fnmatchAux, if_neg ha1, if_neg ha2, if_neg ha3]
      | cons c ss =>
        simp only [fnmatchAux, if_neg ha1, if_neg ha2, if_neg ha3,
          Bool.and_eq_true, beq_iff_eq, ih ps hlen hps ss, List.cons.injEq]

theorem fnmatch_lit (A s : String) (h : hasMagic A = false) : (fnmatch A s = true ↔ A = s) := by
  unfold fnmatch
  rw [fnmatchAux_lit (A.data.length + 1) A.data (Nat.lt_succ_self _)
      (hasMagic_chars A h) s.data]
  constructor
  · intro e
    cases A
    cases s
    exact congrArg String.mk e
  · intro e
    rw [e]

theorem globGlob_lit_mem (A : String) (h : hasMagic A = false) :
    ∀ (fs : List String), A ∈ fs → ∃ t, globGlob fs A = A :: t := by
  intro fs
  induction fs with
  | nil => intro hm; cases hm
  | cons f fs' ih =>
    intro hm
    by_cases e : A = f
    · subst e
      refine ⟨fs'.filter (fun s => fnmatch A s), ?_⟩
      simp only [globGlob, List.filter_cons, if_pos ((fnmatch_lit A A h).mpr rfl)]
    · have hf : fnmatch A f = false := by
        cases hb : fnmatch A f
        · rfl
        · exact absurd ((fnmatch_lit A f h).mp hb) e
      have hm' : A ∈ fs' := by
        cases hm with
        | head => exact absurd rfl e
        | tail _ hm' => exact hm'
      simpa [globGlob, List.filter_cons, hf] using ih hm'

theorem globGlob_lit_not_mem (A : String) (h : hasMagic A = false) :
    ∀ (fs : List String), A ∉ fs → globGlob fs A = [] := by
  intro fs
  induction fs with
  | nil => intro _; rfl
  | cons f fs' ih =>
    intro hm
    have hf : fnmatch A f = false := by
      cases hb : fnmatch A f
      · rfl
      · exact absurd ((fnmatch_lit A f h).mp hb) (by intro e; exact hm (by simp [e]))
    simpa [globGlob, List.filter_cons, hf] using ih (fun hm' => hm (List.mem_cons_of_mem _ hm'))

theorem install_symlink_cons_mem (fs rest : List String) (dst A : String)
    (hA : hasMagic A = false) (hm : A ∈ fs) :
    install_symlink fs (A :: rest) dst = (true, some A) := by
  obtain ⟨t, ht⟩ := globGlob_lit_mem A hA fs hm
  have hst : '*' ∉ A.data := fun hc => (hasMagic_chars A hA '*' hc).1 rfl
  have hf : pyFindChar A '*' = -1 := pyFindCharAux_none '*' A.data hst 0
  have hmem : fsMem fs A = true := (fsMem_iff fs A).mpr hm
  simp [install_symlink, hf, ht, hmem]

theorem install_symlink_cons_not_mem (fs rest : List String) (dst A : String)
    (hA : hasMagic A = false) (hm : A ∉ fs) :
    install_symlink fs (A :: rest) dst = install_symlink fs rest dst := by
  have ht := globGlob_lit_not_mem A hA fs hm
  have hst : '*' ∉ A.data := fun hc => (hasMagic_chars A hA '*' hc).1 rfl
  have hf : pyFindChar A '*' = -1 := pyFindCharAux_none '*' A.data hst 0
  simp [install_symlink, hf, ht]

/-! ## Helper lemmas: string inequalities and the per-asset sidecar state -/

theorem data_append (s t : String) : (s ++ t).data = s.data ++ t.data := rfl

theorem append_right_ne (s : String) {a b : String} (h : a.data ≠ b.data) :
    s ++ a ≠ s ++ b := by
  intro e
  apply h
  have h2 := congrArg String.data e
  rw [data_append, data_append] at h2
  exact List.append_cancel_left h2

theorem append_ne_self (s a : String) (h : a.data ≠ []) : s ++ a ≠ s := by
  intro e
  have h2 := congrArg (fun x : String => x.data.length) e
  simp only [data_append, List.length_append] at h2
  have h3 : a.data.length = 0 := by omega
  exact h (List.length_eq_zero.mp h3)

/-- After processing one non-symlinked, non-image asset with gzip
enabled: the `.gz` sidecar exists exactly when gzip succeeded,
independently of any stale sidecars in the prior state `S`; the `.br`
sidecar exists exactly when the brotli invocation exited 0 — provided a
tool was located, for otherwise the brotli block (setup.py lines
289-308) runs nothing, and a stale `.br` in `S` survives untouched. -/
theorem processAsset_sidecars (env : AEnv) (f : String) (S : List String)
    (hg : env.gzipFlag = true)
    (hns : (processAsset env f).outcome ≠ Outcome.symlinked)
    (hpng : fileType f ≠ "png") :
    fsMem (applyOps S (processAsset env f).ops) (dstPath env.installDir f ++ ".gz")
        = env.gzipOk (dstPath env.installDir f) ∧
    fsMem (applyOps S (processAsset env f).ops) (dstPath env.installDir f ++ ".br")
        = (if (env.brotliFlag && env.brotliCmd.isSome) = true
            then (env.brotliCode (dstPath env.installDir f) == 0)
            else fsMem S (dstPath env.installDir f ++ ".br")) := by
  rcases h : install_symlink env.sysFs (symlinksTable (pyBasename f)) (dstPath env.installDir f)
    with ⟨b, o⟩
  cases b
  case true => exact absurd (by simp [processAsset, h]) hns
  case false =>
  have hft : (fileType f != "png") = true := by simpa using hpng
  have p1 : dstPath env.installDir f ++ ".gz" ≠ dstPath env.installDir f :=
    append_ne_self _ (".gz") (by decide)
  have p2 : dstPath env.installDir f ++ ".br" ≠ dstPath env.installDir f :=
    append_ne_self _ (".br") (by decide)
  have p3 : dstPath env.installDir f ++ ".gz" ≠ dstPath env.installDir f ++ ".br" :=
    append_right_ne _ (by decide)
  have p4 : dstPath env.installDir f ++ ".br" ≠ dstPath env.installDir f ++ ".gz" :=
    append_right_ne _ (by decide)
  have e1 : ((dstPath env.installDir f ++ ".gz") == dstPath env.installDir f) = false := by
    simp only [beq_eq_false_iff_ne]; exact p1
  have e2 : ((dstPath env.installDir f ++ ".br") == dstPath env.installDir f) = false := by
    simp only [beq_eq_false_iff_ne]; exact p2
  have e3 : ((dstPath env.installDir f ++ ".gz") == (dstPath env.installDir f ++ ".br"))
      = false := by
    simp only [beq_eq_false_iff_ne]; exact p3
  have e4 : ((dstPath env.installDir f ++ ".br") == (dstPath env.installDir f ++ ".gz"))
      = false := by
    simp only [beq_eq_false_iff_ne]; exact p4
  by_cases hbc : (env.brotliFlag && env.brotliCmd.isSome) = true
  · by_cases hcode : (env.brotliCode (dstPath env.installDir f) == 0) = true
    · by_cases hgz : env.gzipOk (dstPath env.installDir f) = true <;>
        simp [processAsset, h, hft, hg, hbc, hcode, hgz, applyOps, applyOp,
          fsMem_fsAdd, fsMem_fsRemove, e1, e2, e3, e4, p1, p2, p3, p4]
    · have hcode' : (env.brotliCode (dstPath env.installDir f) == 0) = false := by
        simpa using hcode
      by_cases hgz : env.gzipOk (dstPath env.installDir f) = true <;>
        simp [processAsset, h, hft, hg, hbc, hcode', hgz, applyOps, applyOp,
          fsMem_fsAdd, fsMem_fsRemove, e1, e2, e3, e4, p1, p2, p3, p4]
  · have hbc' : (env.brotliFlag && env.brotliCmd.isSome) = false := by simpa using hbc
    have b2 : ((dstPath env.installDir f ++ ".br") != dstPath env.installDir f) = true := by
      simp [bne, e2]
    have b4 : ((dstPath env.installDir f ++ ".br") != (dstPath env.installDir f ++ ".gz"))
        = true := by
      simp [bne, e4]
    by_cases hgz : env.gzipOk (dstPath env.installDir f) = true <;>
      simp [processAsset, h, hft, hg, hbc', hgz, applyOps, applyOp,
        fsMem_fsAdd, fsMem_fsRemove, e1, e2, e3, e4, p1, p2, p3, p4, b2, b4]

/-- Running the pipeline a second time over the same environment and
discovered tree leaves the filesystem (in particular the sidecar set)
unchanged. -/
theorem install_html5_twice (env : AEnv) (dirs : List (List String)) (S : List String)
    (p : String) :
    fsMem ((install_html5 env dirs (install_html5 env dirs S).2).2) p
      = fsMem ((install_html5 env dirs S).2) p := by
  simp only [install_html5_snd]
  exact applyOps_idem S (runOps env dirs) p

/-! ## Helper lemmas: the downleveler on single lines -/

theorem plainChar_spec (c : Char) :
    plainChar c = true ↔ (¬ c = '\r' ∧ ¬ isLineTerm c = true) := by
  simp [plainChar, lineBreakChar]

theorem string_eq_of_data {a b : String} (h : a.data = b.data) : a = b := by
  cases a
  cases b
  exact congrArg String.mk h

theorem slAux_plain :
    ∀ (l acc : List Char), (∀ c ∈ l, plainChar c = true) → acc.reverse ++ l ≠ [] →
      slAux l acc = [String.mk (acc.reverse ++ l)] := by
  intro l
  induction l with
  | nil =>
    intro acc _ hne
    have : acc ≠ [] := by simpa using hne
    simp [slAux, List.isEmpty_iff, this]
  | cons c cs ih =>
    intro acc hpl _
    have hc := (plainChar_spec c).mp (hpl c (by simp))
    have step : slAux (c :: cs) acc = slAux cs (c :: acc) := by
      conv_lhs => rw [slAux.eq_def]
      simp only [if_neg hc.1, if_neg hc.2]
    rw [step, ih (c :: acc) (fun x hx => hpl x (by simp [hx])) (by simp)]
    simp

theorem pySplitlines_single (s : String) (h1 : s.data ≠ [])
    (h2 : ∀ c ∈ s.data, plainChar c = true) : pySplitlines s = [s] := by
  unfold pySplitlines
  rw [slAux_plain s.data [] h2 (by simpa using h1)]
  simp [string_eq_of_data]

theorem subAll_single (sub : List Char → Option (List Char)) (s : String)
    (h1 : s.data ≠ []) (h2 : ∀ c ∈ s.data, plainChar c = true) :
    subAll sub s = applyPat sub s := by
  rw [subAll, pySplitlines_single s h1 h2]
  rfl

theorem applyPat_none (sub : List Char → Option (List Char)) (s : String)
    (h : sub s.data = none) : applyPat sub s = s := by
  simp [applyPat, h]

theorem dropWs_ws_append (L x : List Char) (hL : ∀ c ∈ L, indentChar c = true) :
    dropWs (L ++ x) = dropWs x := by
  induction L with
  | nil => rfl
  | cons c cs ih =>
    have hc : isWsChar c = true := by
      have h := hL c (by simp)
      rcases (by simpa [indentChar] using h : c = ' ' ∨ c = '\t') with h' | h' <;>
        simp [isWsChar, h']
    simp only [List.cons_append, dropWs, List.dropWhile_cons, hc, if_true]
    exact ih (fun x hx => hL x (by simp [hx]))

theorem dropWs_cons_no (c : Char) (x : List Char) (h : isWsChar c = false) :
    dropWs (c :: x) = c :: x := by
  simp [dropWs, List.dropWhile_cons, h]

theorem subForLet_none (x : List Char) (c : Char) (t : List Char)
    (hx : dropWs x = c :: t) (hc : ¬ c = 'f') : subForLet x = none := by
  unfold subForLet
  rw [hx]
  rw [show matchLit ("for".data) (c :: t) = if c = 'f' then matchLit ("or".data) t else none
      from rfl]
  rw [if_neg hc]
  rfl

theorem subForConst_none (x : List Char) (c : Char) (t : List Char)
    (hx : dropWs x = c :: t) (hc : ¬ c = 'f') : subForConst x = none := by
  unfold subForConst
  rw [hx]
  rw [show matchLit ("for".data) (c :: t) = if c = 'f' then matchLit ("or".data) t else none
      from rfl]
  rw [if_neg hc]
  rfl

theorem subLet_none (x : List Char) (c : Char) (t : List Char)
    (hx : dropWs x = c :: t) (hc : ¬ c = 'l') : subLet x = none := by
  unfold subLet
  rw [hx]
  rw [show matchLit ("let".data) (c :: t) = if c = 'l' then matchLit ("et".data) t else none
      from rfl]
  rw [if_neg hc]
  rfl

theorem subConst_none (x : List Char) (c : Char) (t : List Char)
    (hx : dropWs x = c :: t) (hc : ¬ c = 'c') : subConst x = none := by
  unfold subConst
  rw [hx]
  rw [show matchLit ("const".data) (c :: t) = if c = 'c' then matchLit ("onst".data) t else none
      from rfl]
  rw [if_neg hc]
  rfl

theorem subLet_hit (L R : List Char) (hL : ∀ c ∈ L, indentChar c = true) :
    subLet (L ++ ("let ".data) ++ R) = some (("var ".data) ++ dropWs R) := by
  have h1 : dropWs (L ++ ("let ".data) ++ R) = 'l' :: 'e' :: 't' :: ' ' :: R := by
    rw [List.append_assoc, dropWs_ws_append L _ hL]
    rw [show ("let ".data) ++ R = 'l' :: 'e' :: 't' :: ' ' :: R from rfl]
    exact dropWs_cons_no 'l' _ (by decide)
  unfold subLet
  rw [h1]
  rw [show matchLit ("let".data) ('l' :: 'e' :: 't' :: ' ' :: R) = some (' ' :: R) from rfl]
  show some (("var ".data) ++ dropWs (' ' :: R)) = some (("var ".data) ++ dropWs R)
  rw [show dropWs (' ' :: R) = dropWs R from by
    simp [dropWs, List.dropWhile_cons, (by decide : isWsChar ' ' = true)]]

theorem indentChar_plain {c : Char} (h : indentChar c = true) : plainChar c = true := by
  rcases (by simpa [indentChar] using h : c = ' ' ∨ c = '\t') with h' | h' <;> subst h' <;> decide

theorem mem_dropWs {c : Char} : ∀ {x : List Char}, c ∈ dropWs x → c ∈ x := by
  intro x
  induction x with
  | nil => intro h; exact absurd h (by simp [dropWs])
  | cons a t ih =>
    intro h
    by_cases ha : isWsChar a = true
    · rw [dropWs, List.dropWhile_cons, if_pos ha] at h
      exact List.mem_cons_of_mem a (ih h)
    · rw [dropWs, List.dropWhile_cons, if_neg (by simp_all)] at h
      exact h

/-! ## Helper lemmas: shapes of `get_vcs_info` results -/

theorem revValue_shape (branch : Option String) (w : GitWorld) (rev : PyVal)
    (h : revValue branch w = Except.ok rev) :
    rev = PyVal.vInt 0 ∨ rev = PyVal.vNone ∨ ∃ s, rev = PyVal.vStr s := by
  unfold revValue at h
  split at h
  · exact absurd h (by simp)
  · exact absurd h (by simp)
  · split at h
    · split at h
      · exact absurd h (by simp)
      · injection h with h2
        subst h2
        exact Or.inr (Or.inl rfl)
      · injection h with h2
        subst h2
        exact Or.inr (Or.inr ⟨_, rfl⟩)
    · split at h
      · injection h with h2
        subst h2
        exact Or.inr (Or.inr ⟨_, rfl⟩)
      · injection h with h2
        subst h2
        exact Or.inl rfl

theorem get_vcs_info_parts (w : GitWorld) (info : List (String × PyVal))
    (h : get_vcs_info w = Except.ok info) :
    ∃ rev, revValue (branchLoop w) w = Except.ok rev ∧
      info = branchInfo (branchLoop w) ++ revInfo rev ++ lmInfo (modCount w.status) := by
  unfold get_vcs_info at h
  split at h
  · exact absurd h (by simp)
  · rename_i rev hr
    refine ⟨rev, hr, ?_⟩
    injection h with h2
    exact h2.symm

theorem mem_branchInfo {b : Option String} {k : String} {v : PyVal}
    (h : (k, v) ∈ branchInfo b) :
    k = "BRANCH" ∧ ∃ s, v = PyVal.vStr s ∧ b = some s ∧ s ≠ "" := by
  cases b with
  | none => simp [branchInfo] at h
  | some s =>
    by_cases hs : s = ""
    · subst hs
      simp [branchInfo] at h
    · simp only [branchInfo, if_neg hs, List.mem_singleton, Prod.mk.injEq] at h
      exact ⟨h.1, s, h.2, rfl, hs⟩

theorem mem_revInfo_str {rev : PyVal} {k : String} {v : PyVal}
    (h : (k, v) ∈ revInfo rev)
    (hshape : rev = PyVal.vInt 0 ∨ rev = PyVal.vNone ∨ ∃ s, rev = PyVal.vStr s) :
    k = "REVISION" ∧ ∃ s n, s ≠ "" ∧ pyInt s = some n ∧ v = PyVal.vInt n := by
  rcases hshape with h0 | h0 | ⟨s, h0⟩ <;> subst h0
  · simp [revInfo, pyTruthy] at h
  · simp [revInfo, pyTruthy] at h
  · by_cases hs : s = ""
    · subst hs
      simp [revInfo, pyTruthy] at h
    · have ht : pyTruthy (PyVal.vStr s) = true := by simp [pyTruthy, hs]
      simp only [revInfo, ht, if_true] at h
      cases hp : pyInt s with
      | none =>
        rw [hp] at h
        simp at h
      | some n =>
        rw [hp] at h
        simp only [List.mem_singleton, Prod.mk.injEq] at h
        exact ⟨h.1, s, n, hs, hp, h.2⟩

theorem mem_lmInfo {c : Nat} {k : String} {v : PyVal} (h : (k, v) ∈ lmInfo c) :
    k = "LOCAL_MODIFICATIONS" ∧ v = PyVal.vInt (c : Int) ∧ c ≠ 0 := by
  by_cases hc : c ≠ 0
  · simp only [lmInfo, if_pos hc, List.mem_singleton, Prod.mk.injEq] at h
    exact ⟨h.1, h.2, hc⟩
  · simp [lmInfo, hc] at h

/-! ## Helper lemmas: the sidecar round trip -/

theorem digitChar_clean (d : Nat) : cleanChar (digitChar d) := by
  unfold digitChar
  repeat' split
  all_goals decide

theorem natDecimalAux_clean : ∀ (fuel n : Nat), ∀ c ∈ natDecimalAux fuel n, cleanChar c := by
  intro fuel
  induction fuel with
  | zero =>
    intro n c hc
    exact absurd hc (by simp [natDecimalAux])
  | succ f ih =>
    intro n c hc
    unfold natDecimalAux at hc
    by_cases h10 : n < 10
    · rw [if_pos h10] at hc
      have he : c = digitChar n := List.mem_singleton.mp hc
      subst he
      exact digitChar_clean n
    · rw [if_neg h10] at hc
      rcases List.mem_append.mp hc with h1 | h2
      · exact ih (n / 10) c h1
      · have he : c = digitChar (n % 10) := List.mem_singleton.mp h2
        subst he
        exact digitChar_clean _

theorem pyStrInt_clean (n : Int) : ∀ c ∈ (pyStrInt n).data, cleanChar c := by
  cases n with
  | ofNat m =>
    intro c hc
    exact natDecimalAux_clean _ m c hc
  | negSucc m =>
    intro c hc
    rcases hc with _ | ⟨_, hc'⟩
    · decide
    · exact natDecimalAux_clean _ (m + 1) c hc'

theorem dropWhile_all_false (p : Char → Bool) :
    ∀ (l : List Char), (∀ c ∈ l, p c = false) → l.dropWhile p = l := by
  intro l
  induction l with
  | nil => intro _; rfl
  | cons c cs _ =>
    intro h
    rw [List.dropWhile_cons, if_neg (by simp [h c (by simp)])]

theorem stripData_line (l : List Char) (hne : l ≠ []) (hcl : ∀ c ∈ l, isNLCR c = false) :
    stripData isNLCR (l ++ ['\n']) = l := by
  unfold stripData
  have hfront : (l ++ ['\n']).dropWhile isNLCR = l ++ ['\n'] := by
    cases l with
    | nil => exact absurd rfl hne
    | cons c cs =>
      rw [List.cons_append, List.dropWhile_cons, if_neg (by simp [hcl c (by simp)])]
  rw [hfront]
  have hrev : (l ++ ['\n']).reverse = '\n' :: l.reverse := by simp
  rw [hrev, List.dropWhile_cons, if_pos (by decide)]
  rw [dropWhile_all_false _ _ (fun c hc => hcl c (List.mem_reverse.mp hc))]
  exact List.reverse_reverse l

theorem splitOnChar_no (c : Char) :
    ∀ (l : List Char), c ∉ l → splitOnChar c l = [l] := by
  intro l
  induction l with
  | nil => intro _; rfl
  | cons x xs ih =>
    intro h
    have hx : ¬ x = c := fun e => h (by simp [e])
    rw [splitOnChar, if_neg hx, ih (fun hm => h (List.mem_cons_of_mem _ hm))]

theorem splitOnChar_entry (c : Char) :
    ∀ (k v : List Char), c ∉ k → c ∉ v → splitOnChar c (k ++ c :: v) = [k, v] := by
  intro k
  induction k with
  | nil =>
    intro v _ hv
    rw [List.nil_append, splitOnChar, if_pos rfl, splitOnChar_no c v hv]
  | cons x xs ih =>
    intro v hk hv
    have hx : ¬ x = c := fun e => hk (by simp [e])
    rw [List.cons_append, splitOnChar, if_neg hx,
      ih v (fun hm => hk (List.mem_cons_of_mem _ hm)) hv]

theorem fileLinesAux_line :
    ∀ (l : List Char), '\n' ∉ l → ∀ (acc rest : List Char),
      fileLinesAux (l ++ '\n' :: rest) acc
        = String.mk (acc.reverse ++ l ++ ['\n']) :: fileLinesAux rest [] := by
  intro l
  induction l with
  | nil =>
    intro _ acc rest
    rw [List.nil_append, fileLinesAux, if_pos rfl]
    simp
  | cons c cs ih =>
    intro h acc rest
    have hc : ¬ c = '\n' := fun e => h (by simp [e])
    rw [List.cons_append, fileLinesAux, if_neg hc,
      ih (fun hm => h (List.mem_cons_of_mem _ hm)) (c :: acc) rest]
    simp

theorem dictSet_fresh (d : List (String × PyVal)) (k : String) (v : PyVal)
    (h : ∀ kv ∈ d, kv.1 ≠ k) : dictSet d k v = d ++ [(k, v)] := by
  unfold dictSet
  rw [if_neg]
  simp only [List.any_eq_true, beq_iff_eq, not_exists]
  intro kv hm
  exact h kv hm.1 hm.2

theorem parseVcsLine_entry (acc : List (String × PyVal)) (k vs : String)
    (hk1 : k.data ≠ []) (hk2 : k.data.head? ≠ some '#')
    (hk3 : ∀ c ∈ k.data, cleanChar c) (hv : ∀ c ∈ vs.data, cleanChar c) :
    parseVcsLine acc (String.mk ((k.data ++ '=' :: vs.data) ++ ['\n']))
      = dictSet acc k (PyVal.vStr vs) := by
  have hnotnlcr : ∀ c ∈ k.data ++ '=' :: vs.data, isNLCR c = false := by
    intro c hc
    rcases List.mem_append.mp hc with h1 | h2
    · have := hk3 c h1
      simp [isNLCR, this.1, this.2.1]
    · rcases h2 with _ | ⟨_, h3⟩
      · decide
      · have := hv c h3
        simp [isNLCR, this.1, this.2.1]
  have hhash : pyStartsWith (String.mk ((k.data ++ '=' :: vs.data) ++ ['\n'])) ("#") = false := by
    cases hkd : k.data with
    | nil => exact absurd hkd hk1
    | cons c0 cd =>
      have hc0 : ¬ c0 = '#' := by
        intro e
        apply hk2
        rw [hkd, e]
        rfl
      unfold pyStartsWith
      simp [hkd, leadsWith, Ne.symm hc0]
  unfold parseVcsLine
  rw [hhash]
  simp only [Bool.false_eq_true, if_false]
  have hstrip : pyStripNLCR (String.mk ((k.data ++ '=' :: vs.data) ++ ['\n']))
      = String.mk (k.data ++ '=' :: vs.data) :=
    congrArg String.mk (stripData_line _ (by simp) hnotnlcr)
  rw [hstrip]
  have hsplit : splitOnChar '=' (String.mk (k.data ++ '=' :: vs.data)).data
      = [k.data, vs.data] :=
    splitOnChar_entry '=' k.data vs.data
      (fun hm => (hk3 '=' hm).2.2 rfl) (fun hm => (hv '=' hm).2.2 rfl)
  rw [hsplit]

theorem slAux_clean : ∀ (l acc : List Char), (∀ c ∈ acc, isNLCR c = false) →
    ∀ ln ∈ slAux l acc, ∀ c ∈ ln.data, isNLCR c = false := by
  have haccline : ∀ (acc : List Char), (∀ c ∈ acc, isNLCR c = false) →
      ∀ c ∈ (String.mk acc.reverse).data, isNLCR c = false := by
    intro acc h c hc
    exact h c (List.mem_reverse.mp hc)
  intro l acc
  induction l, acc using slAux.induct with
  | case1 acc hemp =>
    intro _ ln hln
    rw [show slAux [] acc = [] from by rw [slAux.eq_def]; simp [hemp]] at hln
    exact absurd hln (by simp)
  | case2 acc hemp =>
    intro h ln hln
    rw [show slAux [] acc = [String.mk acc.reverse] from by
      rw [slAux.eq_def]; simp [hemp]] at hln
    rw [List.mem_singleton.mp hln]
    exact haccline acc h
  | case3 acc rest2 ih =>
    intro h ln hln
    rw [show slAux ('\r' :: '\n' :: rest2) acc = String.mk acc.reverse :: slAux rest2 []
        from by rw [slAux.eq_def]; simp] at hln
    rcases List.mem_cons.mp hln with rfl | hln'
    · exact haccline acc h
    · exact ih (by simp) ln hln'
  | case4 acc ih =>
    intro h ln hln
    rw [show slAux ['\r'] acc = [String.mk acc.reverse] from by
      rw [slAux.eq_def]
      simp [show slAux ([] : List Char) [] = [] from rfl]] at hln
    rw [List.mem_singleton.mp hln]
    exact haccline acc h
  | case5 acc c2 rest2 hc2 ih =>
    intro h ln hln
    rw [show slAux ('\r' :: c2 :: rest2) acc = String.mk acc.reverse :: slAux (c2 :: rest2) []
        from by
      rw [slAux.eq_def]
      simp only [if_pos rfl]
      split
      · rfl
      · rename_i hfalse
        exact absurd trivial hfalse] at hln
    rcases List.mem_cons.mp hln with rfl | hln'
    · exact haccline acc h
    · exact ih (by simp) ln hln'
  | case6 c rest acc h1 h2 ih =>
    intro h ln hln
    rw [show slAux (c :: rest) acc = String.mk acc.reverse :: slAux rest [] from by
      conv_lhs => rw [slAux.eq_def]
      simp only [if_neg h1, if_pos h2]] at hln
    rcases List.mem_cons.mp hln with rfl | hln'
    · exact haccline acc h
    · exact ih (by simp) ln hln'
  | case7 c rest acc h1 h2 ih =>
    intro h ln hln
    rw [show slAux (c :: rest) acc = slAux rest (c :: acc) from by
      conv_lhs => rw [slAux.eq_def]
      simp only [if_neg h1, if_neg h2]] at hln
    refine ih ?_ ln hln
    intro x hx
    rcases List.mem_cons.mp hx with rfl | hx'
    · have hn : ¬ x = '\n' := fun e => h2 (by simp [isLineTerm, e])
      simp [isNLCR, h1, hn]
    · exact h x hx'

theorem pySplitlines_clean (s : String) :
    ∀ ln ∈ pySplitlines s, ∀ c ∈ ln.data, isNLCR c = false :=
  slAux_clean s.data [] (by simp)

theorem branchLoopGo_clean : ∀ (rs : List (Int × String)) (b : String),
    branchLoopGo rs = some b → ∀ c ∈ b.data, isNLCR c = false := by
  intro rs
  induction rs with
  | nil =>
    intro b hb
    exact absurd hb (by simp [branchLoopGo])
  | cons r rest ih =>
    intro b hb
    unfold branchLoopGo at hb
    split at hb
    · split at hb
      · exact ih b hb
      · rename_i l t heq
        injection hb with hb2
        subst hb2
        exact pySplitlines_clean r.2 l (heq ▸ List.mem_cons_self l t)
    · exact ih b hb

theorem branchLoop_clean (w : GitWorld) (s : String) (h : branchLoop w = some s) :
    ∀ c ∈ s.data, isNLCR c = false :=
  branchLoopGo_clean [w.b1, w.b2, w.b3] s h

theorem branchInfo_shape (b : Option String) :
    branchInfo b = [] ∨ ∃ s, branchInfo b = [("BRANCH", PyVal.vStr s)] := by
  cases b with
  | none => exact Or.inl rfl
  | some s =>
    by_cases hs : s = ""
    · exact Or.inl (by simp [branchInfo, hs])
    · exact Or.inr ⟨s, by simp [branchInfo, hs]⟩

theorem revInfo_shape (rev : PyVal) :
    revInfo rev = [] ∨ ∃ n, revInfo rev = [("REVISION", PyVal.vInt n)] := by
  unfold revInfo
  by_cases ht : pyTruthy rev = true
  · rw [if_pos ht]
    cases rev with
    | vInt n => exact Or.inr ⟨n, rfl⟩
    | vNone => exact Or.inl rfl
    | vStr s =>
      cases hp : pyInt s with
      | none =>
        refine Or.inl ?_
        show (match pyInt s with
          | some n => [("REVISION", PyVal.vInt n)]
          | none => []) = []
        rw [hp]
      | some n =>
        refine Or.inr ⟨n, ?_⟩
        show (match pyInt s with
          | some n => [("REVISION", PyVal.vInt n)]
          | none => []) = [("REVISION", PyVal.vInt n)]
        rw [hp]
  · rw [if_neg ht]
    exact Or.inl rfl

theorem lmInfo_shape (c : Nat) :
    lmInfo c = [] ∨ lmInfo c = [("LOCAL_MODIFICATIONS", PyVal.vInt (c : Int))] := by
  unfold lmInfo
  by_cases hc : c ≠ 0
  · exact Or.inr (by rw [if_pos hc])
  · exact Or.inl (by rw [if_neg hc])

/-- Serialising a list of good, key-distinct entries and folding the
parser over the resulting lines appends the string-rendered entries to
the accumulator. -/
theorem loadAux_serialize :
    ∀ (info acc : List (String × PyVal)),
      (∀ kv ∈ info, entryGood kv) →
      (∀ kv ∈ info, ∀ kv2 ∈ acc, kv2.1 ≠ kv.1) →
      (info.map Prod.fst).Nodup →
      (fileLines (serializeInfo info)).foldl parseVcsLine acc
        = acc ++ info.map (fun kv => (kv.1, PyVal.vStr (pyStr kv.2))) := by
  intro info
  induction info with
  | nil =>
    intro acc _ _ _
    simp [serializeInfo, fileLines, fileLinesAux]
  | cons kv rest ih =>
    intro acc hgood hfresh hnd
    obtain ⟨hk1, hk2, hk3, hval⟩ := hgood kv (by simp)
    have hdata : (serializeInfo (kv :: rest)).data
        = (kv.1.data ++ '=' :: (pyStr kv.2).data) ++ '\n' :: (serializeInfo rest).data := by
      simp [serializeInfo, data_append]
    have hnl : '\n' ∉ (kv.1.data ++ '=' :: (pyStr kv.2).data) := by
      intro hm
      rcases List.mem_append.mp hm with hm1 | hm2
      · exact (hk3 '\n' hm1).1 rfl
      · rcases List.mem_cons.mp hm2 with he | hm3
        · exact absurd he (by decide)
        · exact (hval '\n' hm3).1 rfl
    have hlines : fileLines (serializeInfo (kv :: rest))
        = String.mk ((kv.1.data ++ '=' :: (pyStr kv.2).data) ++ ['\n'])
            :: fileLines (serializeInfo rest) := by
      unfold fileLines
      rw [hdata]
      simpa using
        fileLinesAux_line (kv.1.data ++ '=' :: (pyStr kv.2).data) hnl []
          (serializeInfo rest).data
    rw [hlines, List.foldl_cons,
      parseVcsLine_entry acc kv.1 (pyStr kv.2) hk1 hk2 hk3 hval,
      dictSet_fresh acc kv.1 _ (fun kv2 hm => hfresh kv (by simp) kv2 hm)]
    have hndrest : (rest.map Prod.fst).Nodup := by
      rw [List.map_cons, List.nodup_cons] at hnd
      exact hnd.2
    have hknotin : kv.1 ∉ rest.map Prod.fst := by
      rw [List.map_cons, List.nodup_cons] at hnd
      exact hnd.1
    rw [ih (acc ++ [(kv.1, PyVal.vStr (pyStr kv.2))])
        (fun kv' hm => hgood kv' (List.mem_cons_of_mem _ hm))
        (by
          intro kv' hm kv2 hm2
          rcases List.mem_append.mp hm2 with hm3 | hm4
          · exact hfresh kv' (List.mem_cons_of_mem _ hm) kv2 hm3
          · rw [List.mem_singleton.mp hm4]
            intro he
            exact hknotin (he ▸ List.mem_map_of_mem Prod.fst hm))
        hndrest]
    simp

/-- The full sidecar round trip for a list of good, key-distinct
entries: writing with `record_vcs_info` and reading back with
`load_vcs_info` yields the entries with every value rendered to a
string. -/
theorem roundtrip_good (info : List (String × PyVal))
    (hgood : ∀ kv ∈ info, entryGood kv) (hnd : (info.map Prod.fst).Nodup) :
    load_vcs_info (record_vcs_info info none)
      = info.map (fun kv => (kv.1, PyVal.vStr (pyStr kv.2))) := by
  by_cases h : info = []
  · subst h
    rfl
  · unfold record_vcs_info
    rw [if_neg h]
    show (fileLines (serializeInfo info)).foldl parseVcsLine [] = _
    rw [loadAux_serialize info [] hgood (by simp) hnd]
    simp

/-- Every mapping produced by `get_vcs_info` consists of good entries
with pairwise distinct keys, provided a recorded branch name contains no
`=` character (git cannot put a newline in a branch name — the model
derives this from `splitlines` — but `=` is legal there). -/
theorem get_vcs_info_good (w : GitWorld) (info : List (String × PyVal))
    (h : get_vcs_info w = Except.ok info)
    (hb : ∀ b, ("BRANCH", PyVal.vStr b) ∈ info → '=' ∉ b.data) :
    (∀ kv ∈ info, entryGood kv) ∧ (info.map Prod.fst).Nodup := by
  obtain ⟨rev, hr, hinfo⟩ := get_vcs_info_parts w info h
  have hshape := revValue_shape _ _ _ hr
  constructor
  · intro kv hm
    have hm' := hm
    rw [hinfo] at hm'
    rcases List.mem_append.mp hm' with h1 | h2
    · rcases List.mem_append.mp h1 with h3 | h4
      · obtain ⟨hk, s, hv, hbs, -⟩ := mem_branchInfo h3
        have hkv : kv = ("BRANCH", PyVal.vStr s) := Prod.ext hk hv
        have hclean := branchLoop_clean w s hbs
        have hbeq : '=' ∉ s.data := hb s (hkv ▸ hm)
        refine ⟨?_, ?_, ?_, ?_⟩
        · rw [hk]; decide
        · rw [hk]; decide
        · rw [hk]; decide
        · rw [hv]
          intro c hc
          have hnlcr := hclean c hc
          simp only [isNLCR, Bool.or_eq_false_iff, decide_eq_false_iff_not] at hnlcr
          exact ⟨hnlcr.1, hnlcr.2, fun he => hbeq (he ▸ hc)⟩
      · obtain ⟨hk, s, n, -, -, hv⟩ := mem_revInfo_str h4 hshape
        refine ⟨?_, ?_, ?_, ?_⟩
        · rw [hk]; decide
        · rw [hk]; decide
        · rw [hk]; decide
        · rw [hv]
          exact pyStrInt_clean n
    · obtain ⟨hk, hv, -⟩ := mem_lmInfo h2
      refine ⟨?_, ?_, ?_, ?_⟩
      · rw [hk]; decide
      · rw [hk]; decide
      · rw [hk]; decide
      · rw [hv]
        exact pyStrInt_clean _
  · rw [hinfo]
    rcases branchInfo_shape (branchLoop w) with hb1 | ⟨s, hb1⟩ <;>
      rcases revInfo_shape rev with hr1 | ⟨n, hr1⟩ <;>
        rcases lmInfo_shape (modCount w.status) with hl1 | hl1 <;>
          rw [hb1, hr1, hl1] <;> simp

/-! ## Claim theorems -/

/-- Claim C1 (code bug): not every discovered non-temporary asset
reaches a terminal outcome.  With a brotli tool located and succeeding,
the `break` of setup.py line 306 aborts the per-directory file loop
after the first compressed asset: in a directory containing the two
assets `html5/a.js` and `html5/b.js`, `a.js` is copied and
brotli-compressed, and `b.js` is never processed at all — it has no
terminal outcome, contradicting the claimed invariant. -/
theorem C1_break_bug_eval :
    (install_html5 envC1 [["html5/a.js", "html5/b.js"]] []).1 =
      [("html5/a.js", AssetFate.done Outcome.copied false true),
       ("html5/b.js", AssetFate.unreached)] := by decide

/-- Claim C6 (code bug): glob expansion is not applied exactly to the
candidates containing a glob metacharacter.  Line 38 truth-tests the
index returned by `str.find`, so a candidate whose `*` sits at index 0
is treated as a literal path: with the file `a.js` present, the pattern
`*.js` does have a glob match (second conjunct), yet `install_symlink`
skips expansion, fails the literal existence test and returns failure
(first conjunct). -/
theorem C6_find_bug_eval :
    install_symlink ["a.js"] ["*.js"] "www/lib.js" = (false, none) ∧
    globGlob ["a.js"] "*.js" = ["a.js"] := by decide

/-- Claim C7: `install_symlink` is deterministic and respects candidate
priority order.  For literal candidates `A`, `B` (no glob
metacharacter): if only `B` exists the destination is linked to `B` and
`true` is returned; if `A` exists the destination is linked to `A`; if
neither exists the call returns `false` and performs no symlink (the
linked-path component of the result is `none`). -/
theorem C7_priority (fs : List String) (A B dst : String)
    (hA : hasMagic A = false) (hB : hasMagic B = false) :
    (A ∉ fs → B ∈ fs → install_symlink fs [A, B] dst = (true, some B)) ∧
    (A ∈ fs → install_symlink fs [A, B] dst = (true, some A)) ∧
    (A ∉ fs → B ∉ fs → install_symlink fs [A, B] dst = (false, none)) := by
  refine ⟨?_, ?_, ?_⟩
  · intro hna hb
    rw [install_symlink_cons_not_mem fs [B] dst A hA hna]
    exact install_symlink_cons_mem fs [] dst B hB hb
  · intro ha
    exact install_symlink_cons_mem fs [B] dst A hA ha
  · intro hna hnb
    rw [install_symlink_cons_not_mem fs [B] dst A hA hna,
        install_symlink_cons_not_mem fs [] dst B hB hnb]
    rfl

/-- Claim C2 (amended): for an installed (non-symlinked), non-image
asset processed with gzip enabled, after its processing step the `.gz`
sidecar exists iff the gzip invocation succeeded (a stale `.gz` is
always removed first, setup.py line 284); the `.br` sidecar exists iff
the brotli invocation exited 0 *when a brotli tool was located* (the
stale `.br` is removed at line 301), but when no tool is located the
brotli block is skipped entirely and a pre-existing stale `.br`
survives, so the sidecar state is simply inherited from the prior
filesystem.  Running the whole pipeline twice still yields the same
final filesystem, hence identical sidecar sets. -/
theorem C2_sidecar_amended (env : AEnv) (f : String) (S : List String)
    (dirs : List (List String)) (p : String)
    (hg : env.gzipFlag = true)
    (hns : (processAsset env f).outcome ≠ Outcome.symlinked)
    (hpng : fileType f ≠ "png") :
    (fsMem (applyOps S (processAsset env f).ops) (dstPath env.installDir f ++ ".gz")
        = env.gzipOk (dstPath env.installDir f) ∧
     fsMem (applyOps S (processAsset env f).ops) (dstPath env.installDir f ++ ".br")
        = (if (env.brotliFlag && env.brotliCmd.isSome) = true
            then (env.brotliCode (dstPath env.installDir f) == 0)
            else fsMem S (dstPath env.installDir f ++ ".br"))) ∧
    fsMem ((install_html5 env dirs (install_html5 env dirs S).2).2) p
      = fsMem ((install_html5 env dirs S).2) p :=
  ⟨processAsset_sidecars env f S hg hns hpng,
   install_html5_twice env dirs S p⟩

/-- Witness for the amended C2 at a concrete environment, asset and
tree. -/
theorem C2_sidecar_amended_witness :
    (fsMem (applyOps [] (processAsset envC2 "html5/app.js").ops)
        (dstPath envC2.installDir "html5/app.js" ++ ".gz")
        = envC2.gzipOk (dstPath envC2.installDir "html5/app.js") ∧
     fsMem (applyOps [] (processAsset envC2 "html5/app.js").ops)
        (dstPath envC2.installDir "html5/app.js" ++ ".br")
        = (if (envC2.brotliFlag && envC2.brotliCmd.isSome) = true
            then (envC2.brotliCode (dstPath envC2.installDir "html5/app.js") == 0)
            else fsMem [] (dstPath envC2.installDir "html5/app.js" ++ ".br"))) ∧
    fsMem ((install_html5 envC2 [["html5/app.js"]]
        (install_html5 envC2 [["html5/app.js"]] []).2).2) "www/app.js.gz"
      = fsMem ((install_html5 envC2 [["html5/app.js"]] []).2) "www/app.js.gz" :=
  C2_sidecar_amended envC2 "html5/app.js" [] [["html5/app.js"]] "www/app.js.gz" rfl
    (by decide) (by decide)

/-- Counterexample to the original C2: with brotli requested but no
tool located, processing `html5/app.js` over a filesystem holding a
stale `www/app.js.br` from a prior run leaves that sidecar in place (no
brotli invocation ever runs), so the `.br` sidecar exists although no
brotli invocation succeeded — the claimed iff fails. -/
theorem C2_counterexample :
    fsMem (applyOps ["www/app.js.br"] (processAsset envC2n "html5/app.js").ops)
        ("www/app.js.br") = true ∧
    envC2n.brotliCmd.isSome = false ∧
    (processAsset envC2n "html5/app.js").brRun = false := by decide

/-- Claim C10: for a non-symlinked asset with gzip enabled, the
compression step's image exclusion is exactly the extension `png`:
gzip is invoked exactly when the file type differs from `png` (whatever
other image type it is), and brotli is invoked exactly when additionally
brotli is enabled and a tool was located. -/
theorem C10_png_exclusion (env : AEnv) (f : String)
    (hns : (processAsset env f).outcome ≠ Outcome.symlinked)
    (hg : env.gzipFlag = true) :
    (processAsset env f).gzRun = (fileType f != "png") ∧
    (processAsset env f).brRun
      = ((fileType f != "png") && env.brotliFlag && env.brotliCmd.isSome) := by
  rcases h : install_symlink env.sysFs (symlinksTable (pyBasename f)) (dstPath env.installDir f)
    with ⟨b, o⟩
  cases b
  case true => exact absurd (by simp [processAsset, h]) hns
  case false =>
  by_cases hft : (fileType f != "png") = true
  · by_cases hbc : (env.brotliFlag && env.brotliCmd.isSome) = true
    · simp only [Bool.and_eq_true] at hbc
      simp [processAsset, h, hft, hg, hbc.1, hbc.2]
    · have hbc' : (env.brotliFlag && env.brotliCmd.isSome) = false := by simpa using hbc
      simp [processAsset, h, hft, hg, hbc']
  · have hft' : (fileType f != "png") = false := by simpa using hft
    simp [processAsset, h, hft']

/-- Witness for C10: a `jpg` asset is submitted to both compressors, a
`png` asset to neither. -/
theorem C10_png_exclusion_witness :
    ((processAsset envC10 "html5/icon.jpg").gzRun = (fileType "html5/icon.jpg" != "png") ∧
     (processAsset envC10 "html5/icon.jpg").brRun
       = ((fileType "html5/icon.jpg" != "png") && envC10.brotliFlag
           && envC10.brotliCmd.isSome)) ∧
    ((processAsset envC10 "html5/img.png").gzRun = (fileType "html5/img.png" != "png") ∧
     (processAsset envC10 "html5/img.png").brRun
       = ((fileType "html5/img.png" != "png") && envC10.brotliFlag
           && envC10.brotliCmd.isSome)) :=
  ⟨C10_png_exclusion envC10 "html5/icon.jpg" (by decide) rfl,
   C10_png_exclusion envC10 "html5/img.png" (by decide) rfl⟩

/-- Claim C4 counterexample: the claim (and spec section 8) states that
the line `"  let x = 1;"` is rewritten to `"  var x = 1;"` with its
leading whitespace intact.  In the code the anchored pattern
`^\s*let\s+` itself consumes the leading whitespace, and `re.sub`
replaces the whole match with `"var "`, so the indentation is lost: the
result is `"var x = 1;"`. -/
theorem C4_counterexample :
    downlevelData "  let x = 1;" = "var x = 1;" ∧
    downlevelData "  let x = 1;" ≠ "  var x = 1;" := by decide

/-- Claim C4 (amended): the downleveling rewrite is line-anchored, but
the leading whitespace is absorbed into the rewrite: a single-line input
of the form `⟨indent⟩let ⟨rest⟩` becomes `var ⟨rest with leading
whitespace stripped⟩` (so `"  let x = 1;"` becomes `"var x = 1;"`, not
`"  var x = 1;"`), while a line matching none of the anchored patterns
— such as `"foo(let, x)"`, where the keyword is not anchored at the
start — is left entirely unchanged. -/
theorem C4_downlevel_amended (ind rest line : String)
    (hind : ∀ c ∈ ind.data, indentChar c = true)
    (hrest : ∀ c ∈ rest.data, plainChar c = true)
    (hne : line.data ≠ [])
    (hplain : ∀ c ∈ line.data, plainChar c = true)
    (hnm : noPatMatch line) :
    downlevelData (ind ++ "let " ++ rest) = "var " ++ dropWsStr rest ∧
    downlevelData line = line := by
  constructor
  · have hs0data : (ind ++ "let " ++ rest).data
        = ind.data ++ ("let ".data) ++ rest.data := rfl
    have hletpl : ∀ c ∈ ("let ".data), plainChar c = true := by decide
    have hplain0 : ∀ c ∈ (ind ++ "let " ++ rest).data, plainChar c = true := by
      intro c hc
      rw [hs0data] at hc
      rcases List.mem_append.mp hc with hc1 | hc2
      · rcases List.mem_append.mp hc1 with hc3 | hc4
        · exact indentChar_plain (hind c hc3)
        · exact hletpl c hc4
      · exact hrest c hc2
    have hne0 : (ind ++ "let " ++ rest).data ≠ [] := by
      rw [hs0data]
      simp
    have hdrop0 : dropWs (ind ++ "let " ++ rest).data
        = 'l' :: 'e' :: 't' :: ' ' :: rest.data := by
      rw [hs0data, List.append_assoc, dropWs_ws_append ind.data _ hind]
      rw [show ("let ".data) ++ rest.data = 'l' :: 'e' :: 't' :: ' ' :: rest.data from rfl]
      exact dropWs_cons_no 'l' _ (by decide)
    have hhit : subLet (ind ++ "let " ++ rest).data
        = some (("var ".data) ++ dropWs rest.data) := by
      rw [hs0data]
      exact subLet_hit ind.data rest.data hind
    have stage1 : subAll subForLet (ind ++ "let " ++ rest) = ind ++ "let " ++ rest := by
      rw [subAll_single _ _ hne0 hplain0,
        applyPat_none _ _ (subForLet_none _ 'l' _ hdrop0 (by decide))]
    have stage2 : subAll subLet (ind ++ "let " ++ rest) = "var " ++ dropWsStr rest := by
      rw [subAll_single _ _ hne0 hplain0, applyPat, hhit]
      exact string_eq_of_data rfl
    have hs1data : ("var " ++ dropWsStr rest).data
        = 'v' :: 'a' :: 'r' :: ' ' :: dropWs rest.data := rfl
    have hplain1 : ∀ c ∈ ("var " ++ dropWsStr rest).data, plainChar c = true := by
      intro c hc
      rw [hs1data] at hc
      rcases hc with _ | ⟨_, _ | ⟨_, _ | ⟨_, _ | ⟨_, hc'⟩⟩⟩⟩
      · decide
      · decide
      · decide
      · decide
      · exact hrest c (mem_dropWs hc')
    have hne1 : ("var " ++ dropWsStr rest).data ≠ [] := by
      rw [hs1data]
      simp
    have hdrop1 : dropWs ("var " ++ dropWsStr rest).data
        = 'v' :: 'a' :: 'r' :: ' ' :: dropWs rest.data := by
      rw [hs1data]
      exact dropWs_cons_no 'v' _ (by decide)
    have stage3 : subAll subForConst ("var " ++ dropWsStr rest) = "var " ++ dropWsStr rest := by
      rw [subAll_single _ _ hne1 hplain1,
        applyPat_none _ _ (subForConst_none _ 'v' _ hdrop1 (by decide))]
    have stage4 : subAll subConst ("var " ++ dropWsStr rest) = "var " ++ dropWsStr rest := by
      rw [subAll_single _ _ hne1 hplain1,
        applyPat_none _ _ (subConst_none _ 'v' _ hdrop1 (by decide))]
    rw [downlevelData, stage1, stage2, stage3, stage4]
  · obtain ⟨hm1, hm2, hm3, hm4⟩ := hnm
    have s1 : subAll subForLet line = line := by
      rw [subAll_single _ _ hne hplain, applyPat_none _ _ hm1]
    have s2 : subAll subLet line = line := by
      rw [subAll_single _ _ hne hplain, applyPat_none _ _ hm2]
    have s3 : subAll subForConst line = line := by
      rw [subAll_single _ _ hne hplain, applyPat_none _ _ hm3]
    have s4 : subAll subConst line = line := by
      rw [subAll_single _ _ hne hplain, applyPat_none _ _ hm4]
    rw [downlevelData, s1, s2, s3, s4]

/-- Witness for the amended C4 at the spec's own example lines. -/
theorem C4_downlevel_amended_witness :
    downlevelData ("  " ++ "let " ++ "x = 1;") = "var " ++ dropWsStr "x = 1;" ∧
    downlevelData "foo(let, x)" = "foo(let, x)" :=
  C4_downlevel_amended "  " "x = 1;" "foo(let, x)" (by decide) (by decide) (by decide)
    (by decide) (by decide)

/-- Claim C8: version stamping is idempotent on absence.  If the loaded
VCS mapping is empty (falsy), the whole stamping step returns the data
unchanged; and whenever one of the three fields is absent from the
mapping, the replacement step for that field leaves the data — in
particular its default initializer literal — byte-for-byte unmodified. -/
theorem C8_stamp_absent (info : List (String × PyVal)) (data : String) :
    (info = [] → stampVcs info data = data) ∧
    (info.lookup ("REVISION") = none → stampRev info data = data) ∧
    (info.lookup ("LOCAL_MODIFICATIONS") = none → stampLM info data = data) ∧
    (info.lookup ("BRANCH") = none → stampBranch info data = data) := by
  refine ⟨?_, ?_, ?_, ?_⟩
  · intro h
    simp [stampVcs, h]
  · intro h
    simp [stampRev, h]
  · intro h
    simp [stampLM, h]
  · intro h
    simp [stampBranch, h]

/-- Witness for C8 on the designated file's default literals. -/
theorem C8_stamp_absent_witness :
    stampVcs [] "REVISION : 0," = "REVISION : 0," ∧
    stampRev [("BRANCH", PyVal.vStr "dev")] "REVISION : 0," = "REVISION : 0," ∧
    stampLM [("BRANCH", PyVal.vStr "dev")] "LOCAL_MODIFICATIONS : 0,"
      = "LOCAL_MODIFICATIONS : 0," ∧
    stampBranch [("REVISION", PyVal.vStr "9")] "BRANCH : \"master\","
      = "BRANCH : \"master\"," :=
  ⟨(C8_stamp_absent [] "REVISION : 0,").1 rfl,
   (C8_stamp_absent [("BRANCH", PyVal.vStr "dev")] "REVISION : 0,").2.1 (by decide),
   (C8_stamp_absent [("BRANCH", PyVal.vStr "dev")] "LOCAL_MODIFICATIONS : 0,").2.2.1
     (by decide),
   (C8_stamp_absent [("REVISION", PyVal.vStr "9")] "BRANCH : \"master\",").2.2.2
     (by decide)⟩

/-- Claim C3 counterexample: the round trip is not the identity.
`get_vcs_info` can produce the mapping `{REVISION: 85}` with an integer
value (first conjunct, at a world where branch detection fails and
describe yields `v4.0.6-85-gf253d3f9d`), but `record_vcs_info` writes
`REVISION=85` and `load_vcs_info` parses every value as a string, so the
reloaded mapping holds the string `"85"` and is not equal (as a Python
dict) to the recorded one (second conjunct). -/
theorem C3_counterexample :
    get_vcs_info wC3 = Except.ok [("REVISION", PyVal.vInt 85)] ∧
    pyDictEq (load_vcs_info (record_vcs_info [("REVISION", PyVal.vInt 85)] none))
      [("REVISION", PyVal.vInt 85)] = false := by decide

/-- Claim C3 (amended): the round trip preserves keys and entry order
and renders each value to its string form: for every mapping produced by
`get_vcs_info` whose branch name (if recorded) contains no `=`
character, `load_vcs_info (record_vcs_info info)` equals `info` with
every value replaced by its Python string rendering.  (A branch name
containing `=` would make the written line split into three parts and be
dropped on reload; integer values always survive, as strings.) -/
theorem C3_roundtrip_amended (w : GitWorld) (info : List (String × PyVal))
    (h : get_vcs_info w = Except.ok info)
    (hb : ∀ b, ("BRANCH", PyVal.vStr b) ∈ info → '=' ∉ b.data) :
    load_vcs_info (record_vcs_info info none)
      = info.map (fun kv => (kv.1, PyVal.vStr (pyStr kv.2))) := by
  obtain ⟨hgood, hnd⟩ := get_vcs_info_good w info h hb
  exact roundtrip_good info hgood hnd

/-- Witness for the amended C3 at the same world as the counterexample. -/
theorem C3_roundtrip_amended_witness :
    load_vcs_info (record_vcs_info [("REVISION", PyVal.vInt 85)] none)
      = [("REVISION", PyVal.vInt 85)].map (fun kv => (kv.1, PyVal.vStr (pyStr kv.2))) :=
  C3_roundtrip_amended wC3 [("REVISION", PyVal.vInt 85)] (by decide)
    (fun b hbm => by
      have h1 : "BRANCH" = "REVISION" :=
        congrArg Prod.fst (List.mem_singleton.mp hbm)
      exact absurd h1 (by decide))

/-- Claim C5 (code bug): `get_vcs_info` does not survive a failing
`git describe`.  Line 86 calls `.split("-")` directly on the result of
`get_output_line`, which is `None` when the command exits nonzero (for
example outside a git repository), so the run aborts with an uncaught
`AttributeError` instead of returning a mapping with the revision
absent.  The theorem evaluates the embedded `get_vcs_info` at such a
world. -/
theorem C5_describe_crash_eval :
    get_vcs_info wC5
      = Except.error ("AttributeError: NoneType object has no attribute split") := by decide

/-- Claim C9 counterexample: `get_vcs_info` can record the zero revision.
When `git describe` outputs `a-0-b` (a tag containing `-0-`, described
at an exact match), `parts[1]` is the nonempty — hence truthy — string
`"0"`, which passes the `if rev:` test, parses to the integer 0, and is
recorded as REVISION = 0, contradicting the claim that a computed
revision of 0 leaves the key absent. -/
theorem C9_counterexample :
    get_vcs_info wC9 = Except.ok [("REVISION", PyVal.vInt 0)] := by decide

/-- Claim C9 (amended): `get_vcs_info` never records a zero
LOCAL_MODIFICATIONS — a clean tree leaves the key absent — and records
REVISION exactly for a nonempty (truthy) revision string that parses as
an integer.  The parsed value itself may be 0 (e.g. describe output
`a-0-b`), so a recorded REVISION = 0 is possible, unlike the original
claim. -/
theorem C9_zero_amended (w : GitWorld) (info : List (String × PyVal))
    (h : get_vcs_info w = Except.ok info) :
    (∀ v, ("LOCAL_MODIFICATIONS", v) ∈ info → ∃ c : Nat, c ≠ 0 ∧ v = PyVal.vInt (c : Int)) ∧
    (∀ v, ("REVISION", v) ∈ info → ∃ s n, s ≠ "" ∧ pyInt s = some n ∧ v = PyVal.vInt n) := by
  obtain ⟨rev, hr, hinfo⟩ := get_vcs_info_parts w info h
  have hshape := revValue_shape _ _ _ hr
  subst hinfo
  constructor
  · intro v hv
    rcases List.mem_append.mp hv with h1 | h2
    · rcases List.mem_append.mp h1 with h3 | h4
      · obtain ⟨hk, -⟩ := mem_branchInfo h3
        exact absurd hk (by decide)
      · obtain ⟨hk, -⟩ := mem_revInfo_str h4 hshape
        exact absurd hk (by decide)
    · obtain ⟨-, hv2, hc⟩ := mem_lmInfo h2
      exact ⟨modCount w.status, hc, hv2⟩
  · intro v hv
    rcases List.mem_append.mp hv with h1 | h2
    · rcases List.mem_append.mp h1 with h3 | h4
      · obtain ⟨hk, -⟩ := mem_branchInfo h3
        exact absurd hk (by decide)
      · obtain ⟨-, hrest⟩ := mem_revInfo_str h4 hshape
        exact hrest
    · obtain ⟨hk, -⟩ := mem_lmInfo h2
      exact absurd hk (by decide)

/-- Witness for the amended C9 at the `a-0-b` world: the recorded
REVISION value stems from the truthy, parseable string `"0"`. -/
theorem C9_zero_amended_witness :
    ∃ s n, s ≠ "" ∧ pyInt s = some n ∧ PyVal.vInt 0 = PyVal.vInt n :=
  (C9_zero_amended wC9 [("REVISION", PyVal.vInt 0)] (by decide)).2
    (PyVal.vInt 0) (List.mem_singleton.mpr rfl)

/-- Witness for C7 at concrete candidates and filesystems. -/
theorem C7_priority_witness :
    install_symlink ["pathB"] ["pathA", "pathB"] "dest" = (true, some "pathB") ∧
    install_symlink ["pathA", "pathB"] ["pathA", "pathB"] "dest" = (true, some "pathA") ∧
    install_symlink [] ["pathA", "pathB"] "dest" = (false, none) :=
  ⟨(C7_priority ["pathB"] "pathA" "pathB" "dest" (by decide) (by decide)).1
      (by decide) (by decide),
   (C7_priority ["pathA", "pathB"] "pathA" "pathB" "dest" (by decide) (by decide)).2.1
      (by decide),
   (C7_priority [] "pathA" "pathB" "dest" (by decide) (by decide)).2.2
      (by decide) (by decide)⟩

end Xpra
